import Mathlib

/-!
# SMF: user-plane path pool, single-flight registration, keepalive timer

A shallow embedding of `context/ue_datapath.go`, `service/init.go`, the
follow-up of `HTTPPostSmContexts` in `pdusession/api_sm_contexts_collection.go`
and of the QoS flow-description encoder exercised by `qos/qos_flow_test.go`.

Pointers to `DataPathNode` are indices into an arena (`Heap`); a `nil`
pointer is `none`.  Stateful functions pass their state explicitly.
-/

namespace Smf

/-! ## Path graph: data model -/

/-- Errors a path build can return. -/
inductive BuildError where
  /-- The error `smfContext.UserPlaneInformation is nil`. -/
  | upiNil
  /-- The error that the node `name` is in UERouting.yaml and not in smfcfg.yaml. -/
  | upNodeNotFound (name : String)
  /-- The id generator has no value left to allocate. -/
  | idExhausted
  deriving DecidableEq, Repr

/-- Go `factory.Path`: one path spec of the routing configuration. -/
structure Path where
  DestinationIP : String
  DestinationPort : String
  UPF : List String
  deriving DecidableEq, Repr

/-- The static identity of a forwarding node (`*UPF`), kept as a handle. -/
structure UPF where
  id : Nat
  deriving DecidableEq, Repr

/-- Go `UPNode`: an inventory entry; only its `UPF` field is read here. -/
structure UPNode where
  UPF : UPF
  deriving DecidableEq, Repr

/-- Go `UserPlaneInformation`: `UPNodes` is the map from node name to node. -/
structure UserPlaneInformation where
  UPNodes : List (String × UPNode)
  deriving DecidableEq, Repr

/-- The part of the package-level `smfContext` read by the path builder;
`none` is a nil `UserPlaneInformation`. -/
structure SMFContext where
  UserPlaneInformation : Option UserPlaneInformation
  deriving DecidableEq, Repr

/-- Go `GTPTunnel`: the freshly made tunnel endpoints carry no data here. -/
structure GTPTunnel where
  deriving DecidableEq, Repr

/-- A pointer to a `DataPathNode`: its index in the arena. -/
abbrev NodePtr := Nat

/-- Go `DataPathNode`.  `prev` and `next` are the links AddPrev and AddNext
record. -/
structure DataPathNode where
  UPF : UPF
  UpLinkTunnel : GTPTunnel
  DownLinkTunnel : GTPTunnel
  prev : Option NodePtr
  next : Option NodePtr
  deriving DecidableEq, Repr

/-- The arena of data path nodes created so far. -/
abbrev Heap := List DataPathNode

/-- The `Destination` of a data path. -/
structure Destination where
  DestinationIP : String
  DestinationPort : String
  deriving DecidableEq, Repr

/-- Go `DataPath`: the default flag, the destination and the first node. -/
structure DataPath where
  IsDefaultPath : Bool
  Destination : Destination
  FirstDPNode : Option NodePtr
  deriving DecidableEq, Repr

/-- Go `DataPathPool`: the map from path id to data path, kept as an
association list in insertion order with unique keys. -/
abbrev DataPathPool := List (Nat × DataPath)

/-- Go `math.MaxInt32`. -/
def MaxInt32 : Nat := 2147483647

/-! ## Path graph: missing helpers, modelled from the spec -/

/-- Modelled from the spec: the constructor `NewDataPath` is missing; a new
data path is not default, has an empty destination and no first node. -/
def NewDataPath : DataPath :=
  { IsDefaultPath := false, Destination := ⟨"", ""⟩, FirstDPNode := none }

/-- Modelled from the spec: the constructor `NewDataPathPool` is missing; a
new pool maps no path id. -/
def NewDataPathPool : DataPathPool := []

/-- The map assignment `pool[id] = dp`: replaces the entry of a key that is
present, adds one otherwise. -/
def DataPathPool.set : DataPathPool → Nat → DataPath → DataPathPool
  | [], id, dp => [(id, dp)]
  | (k, v) :: rest, id, dp =>
    if k = id then (id, dp) :: rest else (k, v) :: DataPathPool.set rest id dp

/-- Modelled from the spec: the method `AddPrev` is missing; it records `prev`
as the immediate predecessor of the node `node` points to. -/
def AddPrev (h : Heap) (node prev : NodePtr) : Heap :=
  h.modify (fun n => { n with prev := some prev }) node

/-- Modelled from the spec: the method `AddNext` is missing; it records `next`
as the immediate successor of the node `node` points to. -/
def AddNext (h : Heap) (node next : NodePtr) : Heap :=
  h.modify (fun n => { n with next := some next }) node

/-- Modelled from the spec: the package `idgenerator` is missing; a bounded
sequence generator over `[minValue, maxValue]` that remembers the offsets it
has handed out. -/
structure IDGenerator where
  minValue : Nat
  maxValue : Nat
  valueRange : Nat
  offset : Nat
  usedMap : List Nat
  deriving DecidableEq, Repr

/-- Modelled from the spec: the constructor `idgenerator.NewGenerator` is
missing; a fresh generator over `[minValue, maxValue]` has handed out
nothing. -/
def NewGenerator (minValue maxValue : Nat) : IDGenerator :=
  { minValue := minValue, maxValue := maxValue,
    valueRange := maxValue - minValue + 1, offset := 0, usedMap := [] }

/-- Modelled from the spec: the search of `Allocate` for the next free offset,
going round the range from `off`; `fuel` bounds the offsets looked at, and
`none` means every one of them is in use. -/
def IDGenerator.scan (g : IDGenerator) : Nat → Nat → Option Nat
  | 0, _ => none
  | fuel + 1, off =>
    if off ∈ g.usedMap then g.scan fuel ((off + 1) % g.valueRange) else some off

/-- Modelled from the spec: the method `Allocate` is missing; it hands out the
next value of the bounded sequence that is not in use, and reports exhaustion
when the whole range is in use. -/
def IDGenerator.Allocate (g : IDGenerator) : Except BuildError (Nat × IDGenerator) :=
  match g.scan g.valueRange g.offset with
  | none => .error .idExhausted
  | some off =>
    .ok (off + g.minValue,
      { g with offset := (off + 1) % g.valueRange, usedMap := off :: g.usedMap })

/-! ## Path graph: `context/ue_datapath.go` -/

/-- Go `NewUEDataPathNode`: resolves `name` in the inventory and creates a node
for it in the arena. -/
def NewUEDataPathNode (smfContext : SMFContext) (name : String) (h : Heap) :
    Except BuildError (NodePtr × Heap) :=
  match smfContext.UserPlaneInformation with
  | none => .error .upiNil
  | some upi =>
    match upi.UPNodes.lookup name with
    | none => .error (.upNodeNotFound name)
    | some upNode =>
      .ok (h.length,
        h ++ [{ UPF := upNode.UPF, UpLinkTunnel := {}, DownLinkTunnel := {},
                prev := none, next := none }])

/-- The constant `lowerBound` of `NewUEPreConfigPaths`. -/
def lowerBound : Nat := 0

/-- The inner loop of `NewUEPreConfigPaths` over `path.UPF`, from index `idx`
with the loop variable `parentNode`. -/
def nodeLoop (smfContext : SMFContext) :
    List String → Nat → DataPath → Option NodePtr → Heap → Except BuildError (DataPath × Heap)
  | [], _, dataPath, _, h => .ok (dataPath, h)
  | nodeName :: rest, idx, dataPath, parentNode, h =>
    match NewUEDataPathNode smfContext nodeName h with
    | .error err => .error err
    | .ok (newUeNode, h) =>
      let dataPath :=
        if idx = lowerBound then { dataPath with FirstDPNode := some newUeNode } else dataPath
      let h :=
        match parentNode with
        | some parent => AddNext (AddPrev h newUeNode parent) parent newUeNode
        | none => h
      nodeLoop smfContext rest (idx + 1) dataPath (some newUeNode) h

/-- The outer loop of `NewUEPreConfigPaths` over `paths`, from index `idx`.
The pool holds a reference to `dataPath`, so its entry shows the first node
set later in the same iteration: the finished record is stored. -/
def pathLoop (smfContext : SMFContext) :
    List Path → Nat → DataPathPool → IDGenerator → Heap →
      Except BuildError (DataPathPool × IDGenerator × Heap)
  | [], _, ueDataPathPool, pathIDGenerator, h => .ok (ueDataPathPool, pathIDGenerator, h)
  | path :: rest, idx, ueDataPathPool, pathIDGenerator, h =>
    let dataPath := NewDataPath
    let dataPath := if idx = 0 then { dataPath with IsDefaultPath := true } else dataPath
    match pathIDGenerator.Allocate with
    | .error err => .error err
    | .ok (pathID, pathIDGenerator) =>
      let dataPath :=
        { dataPath with Destination := ⟨path.DestinationIP, path.DestinationPort⟩ }
      match nodeLoop smfContext path.UPF 0 dataPath none h with
      | .error err => .error err
      | .ok (dataPath, h) =>
        pathLoop smfContext rest (idx + 1) (ueDataPathPool.set pathID dataPath)
          pathIDGenerator h

/-- Go `UEPreConfigPaths`: the pool and its id generator. -/
structure UEPreConfigPaths where
  DataPathPool : DataPathPool
  PathIDGenerator : IDGenerator
  deriving DecidableEq, Repr

/-- Go `NewUEPreConfigPaths`: an error stands for the Go result `(nil, err)`.
The arena `h` holds the nodes that exist before the call; the arena after
the call is returned with the pool. -/
def NewUEPreConfigPaths (smfContext : SMFContext) (h : Heap) (SUPI : String)
    (paths : List Path) : Except BuildError (UEPreConfigPaths × Heap) :=
  let ueDataPathPool := NewDataPathPool
  let pathIDGenerator := NewGenerator 1 MaxInt32
  match pathLoop smfContext paths 0 ueDataPathPool pathIDGenerator h with
  | .error err => .error err
  | .ok (ueDataPathPool, pathIDGenerator, h) =>
    .ok ({ DataPathPool := ueDataPathPool, PathIDGenerator := pathIDGenerator }, h)

/-! ## Path graph: test data -/

/-- An inventory with three forwarding nodes. -/
def sampleContext : SMFContext :=
  { UserPlaneInformation := some { UPNodes := [("upf1", ⟨⟨1⟩⟩), ("upf2", ⟨⟨2⟩⟩), ("upf3", ⟨⟨3⟩⟩)] } }

/-- Three specs over the sample inventory, the last one naming no node. -/
def samplePaths : List Path :=
  [ ⟨"10.0.0.1", "80", ["upf1", "upf2", "upf3"]⟩, ⟨"10.0.0.2", "443", ["upf2"]⟩, ⟨"10.0.0.3", "22", []⟩ ]

/-! ## Path graph: notions the statements use -/

/-- Whether `name` resolves in the inventory: the context has user-plane
information and `name` is a key of its `UPNodes`. -/
def resolve (smfContext : SMFContext) (name : String) : Option UPNode :=
  match smfContext.UserPlaneInformation with
  | none => none
  | some upi => upi.UPNodes.lookup name

/-- Every node name of every spec resolves. -/
def allResolvable (smfContext : SMFContext) (paths : List Path) : Prop :=
  ∀ p ∈ paths, ∀ n ∈ p.UPF, (resolve smfContext n).isSome = true

instance (smfContext : SMFContext) (paths : List Path) :
    Decidable (allResolvable smfContext paths) := by
  unfold allResolvable; infer_instance

/-- The chain of nodes the inner loop builds at arena index `base` for the
inventory entries `ups`, the first one having predecessor `prev`. -/
def chainNodes (base : Nat) (prev : Option NodePtr) : List UPNode → Heap
  | [] => []
  | up :: rest =>
    { UPF := up.UPF, UpLinkTunnel := {}, DownLinkTunnel := {}, prev := prev,
      next := if rest = [] then none else some (base + 1) } ::
      chainNodes (base + 1) (some base) rest

/-- The nodes all specs of `paths` add to an arena of size `base`. -/
def builtHeap (smfContext : SMFContext) (base : Nat) : List Path → Heap
  | [] => []
  | p :: rest =>
    chainNodes base none (p.UPF.filterMap (resolve smfContext)) ++
      builtHeap smfContext (base + p.UPF.length) rest

/-- The pool entries the outer loop adds for `paths` from index `idx`, after
`k` ids have been handed out, with an arena of size `base`. -/
def builtPool (idx k base : Nat) : List Path → DataPathPool
  | [] => []
  | p :: rest =>
    (k + 1,
      { IsDefaultPath := decide (idx = 0),
        Destination := ⟨p.DestinationIP, p.DestinationPort⟩,
        FirstDPNode := if p.UPF = [] then none else some base }) ::
      builtPool (idx + 1) (k + 1) (base + p.UPF.length) rest

/-- The state of a generator over `[1, MaxInt32]` that has handed out
exactly the first `k` values. -/
def GenInv (g : IDGenerator) (k : Nat) : Prop :=
  g.minValue = 1 ∧ g.valueRange = MaxInt32 ∧ g.offset = k % MaxInt32 ∧
    (∀ x, x ∈ g.usedMap ↔ x < k) ∧ k ≤ MaxInt32

/-- The arena after the successor link of `parentNode` is set to the next
node to be created. -/
def linkParent (h : Heap) : Option NodePtr → Heap
  | some parent => AddNext h parent h.length
  | none => h

/-- The number of nodes the specs before the `j`-th one name. -/
def nodesBefore (paths : List Path) (j : Nat) : Nat :=
  ((paths.take j).map (fun p => p.UPF.length)).sum

/-- Following the successor links from `start`, at most `fuel` nodes. -/
def followNext (h : Heap) : Nat → Option NodePtr → List NodePtr
  | 0, _ => []
  | _ + 1, none => []
  | fuel + 1, some p => p :: followNext h fuel (h[p]?.bind (fun n => n.next))

/-- Following the predecessor links from `start`, at most `fuel` nodes. -/
def followPrev (h : Heap) : Nat → Option NodePtr → List NodePtr
  | 0, _ => []
  | _ + 1, none => []
  | fuel + 1, some p => p :: followPrev h fuel (h[p]?.bind (fun n => n.prev))

/-- A list whose second spec names a node that the inventory does not hold. -/
def unresolvedPaths : List Path :=
  [ ⟨"10.0.0.1", "80", ["upf1", "upf2"]⟩, ⟨"10.0.0.2", "443", ["upf2", "upf9", "upf3"]⟩ ]

/-! ## Registration and keepalive: `service/init.go` -/

/-- Go `models.NfProfile`: only the `HeartBeatTimer` field (an int32) is read. -/
structure NfProfile where
  HeartBeatTimer : Int
  deriving DecidableEq, Repr

/-- Go `models.ProblemDetails`: only the `Status` field (an int32) is read. -/
structure ProblemDetails where
  Status : Int
  deriving DecidableEq, Repr

/-- A non-nil Go `error` value. -/
structure GoError where
  msg : String
  deriving DecidableEq, Repr

/-- What the calls of the service do to the outside, in order. -/
inductive Event where
  /-- A call of `consumer.SendUpdateNFInstance`. -/
  | refresh
  /-- A call of `consumer.SendNFRegistration`. -/
  | register
  /-- The work function of `intanceRun` was called while `done` had this value. -/
  | work (done : Nat)
  /-- The timer was stopped. -/
  | stopTimer
  /-- The timer was armed by `time.AfterFunc` for this many seconds. -/
  | armTimer (seconds : Int)
  deriving DecidableEq, Repr

/-- The package-level variables of `service/init.go` the functions below use.
`KeepAliveTimer` is `none` for a nil timer and else holds the interval in
seconds the timer was armed with (`time.Duration(x) * time.Second` does not
overflow for an int32 `x`).  `done` is `nrfRegInProgress.done`. -/
structure ServiceState where
  KeepAliveTimer : Option Int
  done : Nat
  refreshNrfRegistration : Bool
  trace : List Event
  deriving DecidableEq, Repr

/-- How a call ends: it returns a value, or it faults on a nil profile; in
both cases the state it leaves is kept. -/
inductive Outcome (α : Type) where
  | ret (a : α) (s : ServiceState)
  | fault (s : ServiceState)
  deriving DecidableEq, Repr

/-- The state a call leaves. -/
def Outcome.state {α : Type} : Outcome α → ServiceState
  | .ret _ s => s
  | .fault s => s

/-- Whether the call returned. -/
def Outcome.returned {α : Type} : Outcome α → Bool
  | .ret _ _ => true
  | .fault _ => false

/-- Adds an event to the trace. -/
def ServiceState.log (s : ServiceState) (e : Event) : ServiceState :=
  { s with trace := s.trace ++ [e] }

/-- The number of runs of the registration work in a trace: calls of the work
function of `intanceRun` and calls of `SendNFRegistration`. -/
def executions : List Event → Nat
  | [] => 0
  | .work _ :: rest => executions rest + 1
  | .register :: rest => executions rest + 1
  | _ :: rest => executions rest

/-- Go `StopKeepAliveTimer`: stops a timer that is not nil and sets it to nil. -/
def StopKeepAliveTimer (s : ServiceState) : ServiceState :=
  match s.KeepAliveTimer with
  | some _ => { (s.log .stopTimer) with KeepAliveTimer := none }
  | none => s

/-- Go `StartKeepAliveTimer`: `nfProfile` is a pointer, `none` when nil; reading
the `HeartBeatTimer` of a nil profile faults. -/
def StartKeepAliveTimer (nfProfile : Option NfProfile) (s : ServiceState) : Outcome Unit :=
  let s := StopKeepAliveTimer s
  match nfProfile with
  | none => .fault s
  | some nfProfile =>
    let nfProfile :=
      if nfProfile.HeartBeatTimer = 0 then { nfProfile with HeartBeatTimer := 30 } else nfProfile
    .ret () { (s.log (.armTimer nfProfile.HeartBeatTimer)) with
              KeepAliveTimer := some nfProfile.HeartBeatTimer }

/-- The result of `consumer.SendUpdateNFInstance`:
`(nfProfile, problemDetails, err)`. -/
abbrev UpdateResult := Option NfProfile × Option ProblemDetails × Option GoError

/-- The result of `consumer.SendNFRegistration`: `(nfProfile, err)`. -/
abbrev RegistrationResult := Option NfProfile × Option GoError

/-- Go `UpdateNF`, the callback of the keepalive timer; `upd` and `reg` are what
the registry answers to the refresh and to a re-registration. -/
def UpdateNF (upd : UpdateResult) (reg : RegistrationResult) (s : ServiceState) :
    Outcome Unit :=
  match s.KeepAliveTimer with
  | none => .ret () s
  | some _ =>
    let heartBeatTimer : Int := 30
    let s := s.log .refresh
    let (nfProfile, problemDetails, err) := upd
    let (nfProfile, s) :=
      match problemDetails with
      | some problemDetails =>
        if problemDetails.Status.tdiv 100 = 5 ∨
            problemDetails.Status = 404 ∨ problemDetails.Status = 400 then
          (reg.1, s.log .register)
        else (nfProfile, s)
      | none =>
        match err with
        | some _ => (reg.1, s.log .register)
        | none => (nfProfile, s)
    match nfProfile with
    | none => .fault s
    | some nfProfile =>
      let heartBeatTimer :=
        if nfProfile.HeartBeatTimer ≠ 0 then nfProfile.HeartBeatTimer else heartBeatTimer
      .ret () { (s.log (.armTimer heartBeatTimer)) with KeepAliveTimer := some heartBeatTimer }

/-- Go `OneInstance.intanceRun`: `f` is the work function; it sees the state it
is called in.  The deferred store resets `done` also when the call faults. -/
def intanceRun (f : ServiceState → Option NfProfile) (s : ServiceState) : Outcome Bool :=
  if s.done = 1 then .ret true s
  else if s.done = 0 then
    let s := { s with done := 1 }
    let s := s.log (.work s.done)
    let nfProfile := f s
    match StartKeepAliveTimer nfProfile s with
    | .ret _ s => .ret false { s with done := 0 }
    | .fault s => .fault { s with done := 0 }
  else .ret false s

/-- Go `SMF.SendNrfRegistration`: `f` is `consumer.ReSendNFRegistration` and
`reg` is what `consumer.SendNFRegistration` answers. -/
def SendNrfRegistration (f : ServiceState → Option NfProfile) (reg : RegistrationResult)
    (s : ServiceState) : Outcome Unit :=
  match intanceRun f s with
  | .fault s => .fault s
  | .ret true s => .ret () { s with refreshNrfRegistration := true }
  | .ret false s =>
    if s.refreshNrfRegistration then
      let s := { s with refreshNrfRegistration := false }
      let s := s.log .register
      match reg with
      | (_, some _) => .ret () s
      | (prof, none) => StartKeepAliveTimer prof s
    else .ret () s

/-- A state with the keepalive timer armed and no run in progress. -/
def liveState : ServiceState :=
  { KeepAliveTimer := some 30, done := 0, refreshNrfRegistration := false, trace := [] }

/-! ## Registration and keepalive: notions the statements use -/

/-- The interval a profile asks for: its `HeartBeatTimer`, or 30 when that
is zero. -/
def intervalOf (nfProfile : NfProfile) : Int :=
  if nfProfile.HeartBeatTimer = 0 then 30 else nfProfile.HeartBeatTimer

/-- The events of `StartKeepAliveTimer` on a profile asking for `secs`. -/
def timerEvents (s : ServiceState) (secs : Int) : List Event :=
  (match s.KeepAliveTimer with
    | some _ => [Event.stopTimer]
    | none => []) ++ [Event.armTimer secs]

/-! ## QoS flow descriptions: the encoder `qos/qos_flow_test.go` exercises -/

/-- A parameter of a flow: its type code and its value bytes. -/
structure QosFlowParameter where
  ParamId : Nat
  ParamContent : List Nat
  deriving DecidableEq, Repr

/-- Modelled from the spec: `models.QosData` is missing; a QoS decision for
the flow `QosId`, with the parameters it sets, in the order it holds them. -/
structure QosData where
  QosId : Nat
  Params : List QosFlowParameter
  deriving DecidableEq, Repr

/-- Modelled from the spec: `models.PccRule` is missing; a policy rule with
the ids of the QoS decisions it refers to. -/
structure PccRule where
  RefQosData : List Nat
  deriving DecidableEq, Repr

/-- Modelled from the spec: `models.SmPolicyDecision` is missing; the rules
and the QoS decisions of a policy decision, a decision of `none` being the
notification that the flow is removed. -/
structure SmPolicyDecision where
  PccRules : List PccRule
  QosDecs : List (Nat × Option QosData)
  deriving DecidableEq, Repr

/-- Modelled from the spec: `qos.SmCtxtPolicyData` is missing; the policy
state of the session, which the test leaves empty and to which the spec gives
no part in the merge. -/
structure SmCtxtPolicyData where
  deriving DecidableEq, Repr

/-- Modelled from the spec: the result type of `BuildSmPolicyUpdate` is
missing; the per-flow update set, in ascending order of flow identifier. -/
structure PolicyUpdate where
  QosFlowUpdate : List QosData
  deriving DecidableEq, Repr

/-- Modelled from the spec: a later decision for the same flow overrides an
earlier one, parameter by parameter: the earlier parameters whose type the
later decision does not set are kept, and the later ones follow. -/
def overrideQosData (earlier later : QosData) : QosData :=
  { QosId := later.QosId,
    Params :=
      earlier.Params.filter
          (fun p => later.Params.all (fun q => decide (q.ParamId ≠ p.ParamId))) ++
        later.Params }

/-- Modelled from the spec: merging one decision into the update set, kept in
ascending order of flow identifier. -/
def mergeDecision : List QosData → QosData → List QosData
  | [], d => [d]
  | q :: rest, d =>
    if d.QosId < q.QosId then d :: q :: rest
    else if d.QosId = q.QosId then overrideQosData q d :: rest
    else q :: mergeDecision rest d

/-- Modelled from the spec: `BuildSmPolicyUpdate` is missing; it merges the
QoS decisions the rules refer to into the per-flow update set, in the order
of the decisions, a removal taking the flow out of the set. -/
def BuildSmPolicyUpdate (_smCtxtPolData : SmCtxtPolicyData)
    (smPolicyDecision : SmPolicyDecision) : PolicyUpdate :=
  { QosFlowUpdate :=
      smPolicyDecision.QosDecs.foldl
        (fun flows (entry : Nat × Option QosData) =>
          if smPolicyDecision.PccRules.any (fun rule => rule.RefQosData.contains entry.1) then
            match entry.2 with
            | some d => mergeDecision flows d
            | none => flows.filter (fun q => q.QosId ≠ entry.1)
          else flows)
        [] }

/-- A flow description: the flow-identifier field, the operation field, the
field carrying the parameter count and the parameters. -/
structure QoSFlowDescription where
  Qfi : Nat
  OpCode : Nat
  NumOfParam : Nat
  ParamList : List QosFlowParameter
  deriving DecidableEq, Repr

/-- The result of the encoder: the content of the flow descriptions, one
number for each byte. -/
structure QosFlowDescriptionsAuthorized where
  Content : List Nat
  deriving DecidableEq, Repr

/-- The operation code "create new QoS flow description" (second byte of the
expected bytes of the test). -/
def OperationCodeCreateNewQoSFlowDescription : Nat := 0x20

/-- The E bit of the byte that carries the parameter count (0x45 in the
expected bytes of the test: the E bit and five parameters). -/
def QFDEbit : Nat := 0x40

/-- Modelled from the spec: the flow description of one flow of the update
set: its identifier, the operation, the count of its parameters with the E
bit, and its parameters in the order the flow holds them.  The order by type
code of which the spec speaks is not imposed: the expected bytes of the test
are not in that order. -/
def BuildAddQosFlowDescFromQoSDesc (qosData : QosData) : QoSFlowDescription :=
  { Qfi := qosData.QosId,
    OpCode := OperationCodeCreateNewQoSFlowDescription,
    NumOfParam := QFDEbit + qosData.Params.length,
    ParamList := qosData.Params }

/-- Modelled from the spec: the bytes of one parameter: type, length, value,
the length counting the value bytes only. -/
def encodeParam (param : QosFlowParameter) : List Nat :=
  param.ParamId :: param.ParamContent.length :: param.ParamContent

/-- Modelled from the spec: the bytes of the parameters of a flow. -/
def encodeParams : List QosFlowParameter → List Nat
  | [] => []
  | param :: rest => encodeParam param ++ encodeParams rest

/-- Modelled from the spec: `AddQFD`, the bytes of one flow block. -/
def AddQFD (qfd : QoSFlowDescription) : List Nat :=
  qfd.Qfi :: qfd.OpCode :: qfd.NumOfParam :: encodeParams qfd.ParamList

/-- Modelled from the spec: the bytes of the flow blocks of a list of flows. -/
def encodeFlows : List QosData → List Nat
  | [] => []
  | qosData :: rest => AddQFD (BuildAddQosFlowDescFromQoSDesc qosData) ++ encodeFlows rest

/-- Modelled from the spec: `BuildAuthorizedQosFlowDescriptions` is missing;
it writes one block per flow of the update set. -/
def BuildAuthorizedQosFlowDescriptions (smPolicyUpdates : PolicyUpdate) :
    QosFlowDescriptionsAuthorized :=
  { Content := encodeFlows smPolicyUpdates.QosFlowUpdate }

/-- The `expectedBytes` of `TestBuildAuthorizedQosFlowDescriptions`. -/
def expectedBytes : List Nat :=
  [0x5, 0x20, 0x45, 0x1, 0x1, 0x5, 0x4, 0x3, 0x6, 0x0,
   0x65, 0x5, 0x3, 0x6, 0x0, 0xc9, 0x2, 0x3, 0x6, 0x0, 0xb, 0x3, 0x3, 0x6,
   0x0, 0x15]

/-! ## QoS flow descriptions: reading the bytes back -/

/-- A parameter read back from the bytes. -/
structure ParamTriplet where
  paramType : Nat
  length : Nat
  value : List Nat
  deriving DecidableEq, Repr

/-- A flow block read back from the bytes. -/
structure FlowBlock where
  flowId : Nat
  operation : Nat
  countByte : Nat
  params : List ParamTriplet
  deriving DecidableEq, Repr

/-- Reads `count` triplets; each length says how many value bytes follow. -/
def parseParams : Nat → List Nat → Option (List ParamTriplet × List Nat)
  | 0, bytes => some ([], bytes)
  | count + 1, paramType :: len :: bytes =>
    if len ≤ bytes.length then
      match parseParams count (bytes.drop len) with
      | some (params, rest) => some (⟨paramType, len, bytes.take len⟩ :: params, rest)
      | none => none
    else none
  | _ + 1, _ => none

/-- Reads flow blocks until the bytes are used up; `none` when bytes are left
that are no block.  The parameter count is in the low six bits of its byte. -/
def parseBlocks : Nat → List Nat → Option (List FlowBlock)
  | _, [] => some []
  | 0, _ :: _ => none
  | fuel + 1, flowId :: operation :: countByte :: bytes =>
    match parseParams (countByte % 64) bytes with
    | some (params, rest) =>
      match parseBlocks fuel rest with
      | some blocks => some (⟨flowId, operation, countByte, params⟩ :: blocks)
      | none => none
    | none => none
  | _ + 1, _ => none

/-- The triplet a parameter is written as. -/
def tripletOf (param : QosFlowParameter) : ParamTriplet :=
  ⟨param.ParamId, param.ParamContent.length, param.ParamContent⟩

/-- The block a flow of the update set is written as. -/
def blockOf (qosData : QosData) : FlowBlock :=
  ⟨qosData.QosId, OperationCodeCreateNewQoSFlowDescription,
    QFDEbit + qosData.Params.length, qosData.Params.map tripletOf⟩

/-! ## QoS flow descriptions: notions of order -/

/-- The type codes of the parameters of a block, in the order they are
written. -/
def FlowBlock.paramTypes (block : FlowBlock) : List Nat :=
  block.params.map (fun t => t.paramType)

/-- A list of numbers in ascending order. -/
def ascending (codes : List Nat) : Prop :=
  List.Pairwise (fun a b => a ≤ b) codes

instance (codes : List Nat) : Decidable (ascending codes) := by
  unfold ascending; infer_instance

/-- A sample with three decisions given out of order, for the flows 69, 5 and
again 69, the last one overriding a parameter of the first. -/
def twoFlowDecision : SmPolicyDecision :=
  { PccRules := [{ RefQosData := [69, 5] }],
    QosDecs :=
      [(69, some { QosId := 69, Params := [⟨1, [9]⟩, ⟨2, [6, 0, 11]⟩] }),
       (5, some { QosId := 5, Params := [⟨1, [5]⟩, ⟨4, [6, 0, 101]⟩] }),
       (69, some { QosId := 69, Params := [⟨2, [6, 0, 12]⟩] })] }

/-! ## Session create: `pdusession/api_sm_contexts_collection.go` -/

/-- Modelled from the spec: the type `SMContext` is missing; a session context
with the reference it is addressed by. -/
structure SMContext where
  Ref : String
  deriving DecidableEq, Repr

/-- The message kinds of `svcmsgtypes` the handler uses. -/
inductive SmfMsgType where
  | CreateSmContext
  | PfcpSessCreate
  deriving DecidableEq, Repr

/-- Go `httpwrapper.Response`: only the `Status` field decides what follows. -/
structure HTTPResponse where
  Status : Int
  deriving DecidableEq, Repr

/-- Modelled from the spec: the type `transaction.Transaction` is missing; a
unit of work with its message kind, its serialization key, its owning session
context (`none` when nil), its response and its failure value. -/
structure Transaction where
  MsgType : SmfMsgType
  CtxtKey : String
  Ctxt : Option SMContext
  Rsp : Option HTTPResponse
  Err : Option GoError
  deriving DecidableEq, Repr

/-- Modelled from the spec: the constructor `transaction.NewTransaction` is
missing; a new transaction of the given kind has no key, no context and no
failure, and the response it is given. -/
def NewTransaction (rsp : Option HTTPResponse) (msgType : SmfMsgType) : Transaction :=
  { MsgType := msgType, CtxtKey := "", Ctxt := none, Rsp := rsp, Err := none }

/-- What the handler is seen to do, in order. -/
inductive HandlerEvent where
  /-- The answer was written with `c.Render` as multipart. -/
  | render (status : Int)
  /-- The answer was written with `c.JSON`. -/
  | json (status : Int)
  /-- A transaction was handed to `StartTxnLifeCycle`. -/
  | submit (txn : Transaction)
  /-- A call of `RemoveSMContext` with this reference. -/
  | remove (ref : String)
  deriving DecidableEq, Repr

/-- The state the handler works on: the lookup table from reference to
session context and what the handler has done so far. -/
structure PduState where
  smContextPool : List (String × SMContext)
  events : List HandlerEvent
  deriving DecidableEq, Repr

/-- Modelled from the spec: the function `RemoveSMContext` is missing; it takes
the entry of the reference out of the lookup table. -/
def RemoveSMContext (ref : String) (s : PduState) : PduState :=
  { smContextPool := s.smContextPool.filter (fun entry => entry.1 ≠ ref),
    events := s.events ++ [.remove ref] }

/-- The statuses `HTTPPostSmContexts` answers as multipart. -/
def multipartStatuses : List Int := [201, 400, 403, 404, 500, 503, 504]

/-- Go `HTTPPostSmContexts`, from the point where the create transaction `txn`
has completed, in the state `s` of that time; `bindErr` is the error of
reading the request body, on which no transaction is made.  The body of the
goroutine that follows the answer is run at once.  `none` is a fault: a nil
response, or the reference of a nil context. -/
def HTTPPostSmContexts (bindErr : Option GoError) (txn : Transaction) (s : PduState) :
    Option PduState :=
  match bindErr with
  | some _ => some { s with events := s.events ++ [.json 400] }
  | none =>
    match txn.Rsp with
    | none => none
    | some HTTPResponse =>
      let smContext := txn.Ctxt
      let s :=
        if HTTPResponse.Status ∈ multipartStatuses then
          { s with events := s.events ++ [.render HTTPResponse.Status] }
        else { s with events := s.events ++ [.json HTTPResponse.Status] }
      if HTTPResponse.Status = 201 then
        let txn := NewTransaction none .PfcpSessCreate
        let txn := { txn with Ctxt := smContext }
        some { s with events := s.events ++ [.submit txn] }
      else
        match smContext with
        | none => none
        | some smContext => some (RemoveSMContext smContext.Ref s)

/-- The transactions a list of events hands to `StartTxnLifeCycle`. -/
def submitted : List HandlerEvent → List Transaction
  | [] => []
  | .submit txn :: rest => txn :: submitted rest
  | _ :: rest => submitted rest

/-- The references a list of events removes. -/
def removed : List HandlerEvent → List String
  | [] => []
  | .remove ref :: rest => ref :: removed rest
  | _ :: rest => removed rest

/-- A table with two sessions. -/
def sampleTable : PduState :=
  { smContextPool := [("urn:uuid:1", ⟨"urn:uuid:1"⟩), ("urn:uuid:2", ⟨"urn:uuid:2"⟩)],
    events := [] }

/-- A completed create transaction of the session `urn:uuid:2` with the given
status. -/
def completedCreate (status : Int) : Transaction :=
  { MsgType := .CreateSmContext, CtxtKey := "", Ctxt := some ⟨"urn:uuid:2"⟩,
    Rsp := some ⟨status⟩, Err := none }

/-! ## Path graph: lemmas -/

theorem modify_append_lt {α : Type} (f : α → α) :
    ∀ (l l2 : List α) (n : Nat), n < l.length →
      (l ++ l2).modify f n = l.modify f n ++ l2
  | [], _, _, hn => by simp at hn
  | a :: l, l2, 0, _ => by simp
  | a :: l, l2, n + 1, hn => by
    have hn2 : n < l.length := by simpa using hn
    simp [modify_append_lt f l l2 n hn2]

theorem modify_append_length {α : Type} (f : α → α) :
    ∀ (l : List α) (x : α) (l2 : List α),
      (l ++ x :: l2).modify f l.length = l ++ f x :: l2
  | [], _, _ => by simp
  | a :: l, x, l2 => by simp [modify_append_length f l x l2]

theorem scan_free (g : IDGenerator) (fuel off : Nat) (h : off ∉ g.usedMap) :
    g.scan (fuel + 1) off = some off := by
  simp [IDGenerator.scan, h]

theorem scan_full (g : IDGenerator) (hpos : 0 < g.valueRange)
    (hall : ∀ x, x < g.valueRange → x ∈ g.usedMap) :
    ∀ (fuel off : Nat), off < g.valueRange → g.scan fuel off = none
  | 0, _, _ => rfl
  | fuel + 1, off, hoff => by
    have hmem : off ∈ g.usedMap := hall off hoff
    simp only [IDGenerator.scan, hmem, if_true]
    exact scan_full g hpos hall fuel _ (Nat.mod_lt _ hpos)

theorem genInv_fresh : GenInv (NewGenerator 1 MaxInt32) 0 := by
  refine ⟨rfl, rfl, rfl, ?_, Nat.zero_le _⟩
  intro x; simp [NewGenerator]

theorem allocate_ok (g : IDGenerator) (k : Nat) (hg : GenInv g k) (hk : k < MaxInt32) :
    ∃ g2, g.Allocate = .ok (k + 1, g2) ∧ GenInv g2 (k + 1) := by
  obtain ⟨hmin, hrange, hoff, hused, _⟩ := hg
  have hoffk : g.offset = k := by rw [hoff]; exact Nat.mod_eq_of_lt hk
  have hfree : g.offset ∉ g.usedMap := by
    rw [hused, hoffk]; exact Nat.lt_irrefl k
  have hscan : g.scan g.valueRange g.offset = some g.offset := by
    have hpos : g.valueRange = (MaxInt32 - 1) + 1 := by rw [hrange]; rfl
    rw [hpos]; exact scan_free g _ _ hfree
  refine ⟨{ g with offset := (g.offset + 1) % g.valueRange,
                   usedMap := g.offset :: g.usedMap }, ?_, ?_⟩
  · rw [hoffk] at hscan
    simp [IDGenerator.Allocate, hscan, hmin, hoffk]
  · refine ⟨hmin, hrange, ?_, ?_, hk⟩
    · simp [hoffk, hrange]
    · intro x
      simp only [List.mem_cons, hused, hoffk]
      omega

theorem allocate_full (g : IDGenerator) (hg : GenInv g MaxInt32) :
    g.Allocate = .error .idExhausted := by
  obtain ⟨_, hrange, hoff, hused, _⟩ := hg
  have hpos : 0 < g.valueRange := by rw [hrange]; decide
  have hall : ∀ x, x < g.valueRange → x ∈ g.usedMap := by
    intro x hx; rw [hused]; rwa [hrange] at hx
  have hofflt : g.offset < g.valueRange := by
    rw [hoff, hrange]; exact Nat.mod_lt _ (by decide)
  simp [IDGenerator.Allocate, scan_full g hpos hall _ _ hofflt]

theorem newNode_of_resolve (smfContext : SMFContext) (name : String) (h : Heap)
    (up : UPNode) (hr : resolve smfContext name = some up) :
    NewUEDataPathNode smfContext name h =
      .ok (h.length, h ++ [{ UPF := up.UPF, UpLinkTunnel := {}, DownLinkTunnel := {},
                             prev := none, next := none }]) := by
  unfold resolve at hr
  unfold NewUEDataPathNode
  cases hupi : smfContext.UserPlaneInformation with
  | none => simp [hupi] at hr
  | some upi => simp [hupi] at hr; simp [hr]

theorem newNode_of_unresolved (smfContext : SMFContext) (name : String) (h : Heap)
    (hr : resolve smfContext name = none) :
    ∃ err, NewUEDataPathNode smfContext name h = .error err := by
  unfold resolve at hr
  unfold NewUEDataPathNode
  cases hupi : smfContext.UserPlaneInformation with
  | none => exact ⟨_, rfl⟩
  | some upi =>
    simp only [hupi] at hr
    simp only [hr]
    exact ⟨_, rfl⟩

theorem linkParent_some (h : Heap) (p : NodePtr) :
    linkParent h (some p) = AddNext h p h.length := rfl

theorem length_linkParent (h : Heap) (parent : Option NodePtr) :
    (linkParent h parent).length = h.length := by
  cases parent <;> simp [linkParent, AddNext]

theorem link_new (h : Heap) (parent : Option NodePtr) (u : UPF) :
    (∀ p, parent = some p → p < h.length) →
    (match parent with
      | some q => AddNext (AddPrev (h ++ [DataPathNode.mk u {} {} none none]) h.length q) q h.length
      | none => h ++ [DataPathNode.mk u {} {} none none]) =
      linkParent h parent ++ [DataPathNode.mk u {} {} parent none] := by
  intro hp
  cases parent with
  | none => rfl
  | some q =>
    have hq : q < h.length := hp q rfl
    simp only [linkParent, AddNext, AddPrev]
    rw [modify_append_length, modify_append_lt _ _ _ _ hq]

theorem addNext_last (hm : Heap) (x : DataPathNode) (n j : Nat) (hn : n = hm.length) :
    AddNext (hm ++ [x]) n j = hm ++ [{ x with next := some j }] := by
  subst hn
  simp only [AddNext]
  rw [modify_append_length]

theorem nodeLoop_err (smfContext : SMFContext) :
    ∀ (names : List String), (∃ n ∈ names, resolve smfContext n = none) →
      ∀ (idx : Nat) (dp : DataPath) (parent : Option NodePtr) (h : Heap),
        ∃ err, nodeLoop smfContext names idx dp parent h = .error err
  | [], hbad, _, _, _, _ => by simp at hbad
  | n :: rest, hbad, idx, dp, parent, h => by
    cases hr : resolve smfContext n with
    | none =>
      obtain ⟨err, herr⟩ := newNode_of_unresolved smfContext n h hr
      exact ⟨err, by simp [nodeLoop, herr]⟩
    | some up =>
      have hrest : ∃ m ∈ rest, resolve smfContext m = none := by
        obtain ⟨m, hm, hmr⟩ := hbad
        rcases List.mem_cons.mp hm with rfl | hm2
        · rw [hr] at hmr; cases hmr
        · exact ⟨m, hm2, hmr⟩
      simp only [nodeLoop, newNode_of_resolve smfContext n h up hr]
      exact nodeLoop_err smfContext rest hrest _ _ _ _

theorem nodeLoop_ok (smfContext : SMFContext) :
    ∀ (names : List String), (∀ n ∈ names, (resolve smfContext n).isSome = true) →
      ∀ (idx : Nat) (dp : DataPath) (parent : Option NodePtr) (h : Heap),
        (∀ p, parent = some p → p < h.length) →
        nodeLoop smfContext names idx dp parent h =
          .ok (if idx = 0 ∧ names ≠ [] then { dp with FirstDPNode := some h.length } else dp,
               (if names = [] then h else linkParent h parent) ++
                 chainNodes h.length parent (names.filterMap (resolve smfContext)))
  | [], _, idx, dp, parent, h, _ => by simp [nodeLoop, chainNodes]
  | n :: rest, hres, idx, dp, parent, h, hp => by
    obtain ⟨up, hr⟩ := Option.isSome_iff_exists.mp (hres n (List.mem_cons_self _ _))
    have hrest : ∀ m ∈ rest, (resolve smfContext m).isSome = true :=
      fun m hm => hres m (List.mem_cons_of_mem _ hm)
    simp only [nodeLoop, newNode_of_resolve smfContext n h up hr]
    rw [link_new h parent up.UPF hp]
    have hlen : (linkParent h parent ++ [DataPathNode.mk up.UPF {} {} parent none]).length =
        h.length + 1 := by
      simp [length_linkParent]
    rw [nodeLoop_ok smfContext rest hrest (idx + 1) _ (some h.length) _
      (by intro p hpe; cases hpe; rw [hlen]; exact Nat.lt_succ_self _)]
    have hfm : (n :: rest).filterMap (resolve smfContext) =
        up :: rest.filterMap (resolve smfContext) := by
      simp [List.filterMap_cons, hr]
    rw [hfm, hlen]
    have hnil : (rest.filterMap (resolve smfContext) = []) ↔ rest = [] := by
      constructor
      · intro hf
        cases rest with
        | nil => rfl
        | cons m r =>
          obtain ⟨um, hum⟩ := Option.isSome_iff_exists.mp (hrest m (List.mem_cons_self _ _))
          simp [List.filterMap_cons, hum] at hf
      · intro hf; subst hf; rfl
    by_cases hrnil : rest = []
    · subst hrnil
      simp [chainNodes, lowerBound]
    · have hfne : ¬ rest.filterMap (resolve smfContext) = [] := fun hf => hrnil (hnil.mp hf)
      simp only [hrnil, if_false]
      rw [linkParent_some, addNext_last _ _ _ _ (length_linkParent h parent).symm]
      simp [chainNodes, hfne, lowerBound, length_linkParent]

theorem set_fresh : ∀ (pool : DataPathPool) (id : Nat) (dp : DataPath),
    (∀ e ∈ pool, e.1 ≠ id) → pool.set id dp = pool ++ [(id, dp)]
  | [], _, _, _ => rfl
  | (k, v) :: rest, id, dp, hfresh => by
    have hk : k ≠ id := hfresh (k, v) (List.mem_cons_self _ _)
    have hrest : ∀ e ∈ rest, e.1 ≠ id := fun e he => hfresh e (List.mem_cons_of_mem _ he)
    simp [DataPathPool.set, hk, set_fresh rest id dp hrest]

theorem length_chainNodes : ∀ (ups : List UPNode) (base : Nat) (prev : Option NodePtr),
    (chainNodes base prev ups).length = ups.length
  | [], _, _ => rfl
  | _ :: rest, base, _ => by simp [chainNodes, length_chainNodes rest]

theorem length_filterMap_resolve (smfContext : SMFContext) :
    ∀ (names : List String), (∀ n ∈ names, (resolve smfContext n).isSome = true) →
      (names.filterMap (resolve smfContext)).length = names.length
  | [], _ => rfl
  | n :: rest, hres => by
    obtain ⟨up, hr⟩ := Option.isSome_iff_exists.mp (hres n (List.mem_cons_self _ _))
    have hrest : ∀ m ∈ rest, (resolve smfContext m).isSome = true :=
      fun m hm => hres m (List.mem_cons_of_mem _ hm)
    simp [List.filterMap_cons, hr, length_filterMap_resolve smfContext rest hrest]

/-- One resolvable spec: the inner loop started as the outer loop starts it. -/
theorem nodeLoop_path (smfContext : SMFContext) (names : List String)
    (hres : ∀ n ∈ names, (resolve smfContext n).isSome = true) (dp : DataPath) (h : Heap) :
    nodeLoop smfContext names 0 dp none h =
      .ok ({ dp with FirstDPNode := if names = [] then dp.FirstDPNode else some h.length },
           h ++ chainNodes h.length none (names.filterMap (resolve smfContext))) := by
  rw [nodeLoop_ok smfContext names hres 0 dp none h (by intro p hp; cases hp)]
  by_cases hn : names = []
  · subst hn; simp
  · simp [hn, linkParent]

theorem pathLoop_err (smfContext : SMFContext) :
    ∀ (paths : List Path),
      (∃ p ∈ paths, ∃ n ∈ p.UPF, resolve smfContext n = none) →
      ∀ (idx : Nat) (pool : DataPathPool) (g : IDGenerator) (h : Heap),
        ∃ err, pathLoop smfContext paths idx pool g h = .error err
  | [], hbad, _, _, _, _ => by simp at hbad
  | p :: rest, hbad, idx, pool, g, h => by
    simp only [pathLoop]
    cases halloc : g.Allocate with
    | error e => exact ⟨e, rfl⟩
    | ok r =>
      obtain ⟨pathID, g2⟩ := r
      simp only []
      cases hnl : nodeLoop smfContext p.UPF 0
          { (if idx = 0 then { NewDataPath with IsDefaultPath := true } else NewDataPath) with
            Destination := ⟨p.DestinationIP, p.DestinationPort⟩ } none h with
      | error e => exact ⟨e, rfl⟩
      | ok r2 =>
        obtain ⟨dp2, h2⟩ := r2
        simp only []
        have hrest : ∃ q ∈ rest, ∃ n ∈ q.UPF, resolve smfContext n = none := by
          obtain ⟨q, hq, n, hn, hr⟩ := hbad
          rcases List.mem_cons.mp hq with rfl | hq2
          · obtain ⟨err, herr⟩ := nodeLoop_err smfContext q.UPF ⟨n, hn, hr⟩ 0
                { (if idx = 0 then { NewDataPath with IsDefaultPath := true } else NewDataPath) with
                  Destination := ⟨q.DestinationIP, q.DestinationPort⟩ } none h
            rw [herr] at hnl; cases hnl
          · exact ⟨q, hq2, n, hn, hr⟩
        exact pathLoop_err smfContext rest hrest _ _ _ _

/-- One iteration of the outer loop on a resolvable spec, after `k` ids. -/
theorem pathLoop_step (smfContext : SMFContext) (p : Path) (rest : List Path)
    (hres : ∀ n ∈ p.UPF, (resolve smfContext n).isSome = true)
    (idx : Nat) (pool : DataPathPool) (g : IDGenerator) (h : Heap) (k : Nat)
    (hg : GenInv g k) (hk : k < MaxInt32) (hpool : ∀ e ∈ pool, e.1 ≤ k) :
    ∃ g2, GenInv g2 (k + 1) ∧
      pathLoop smfContext (p :: rest) idx pool g h =
        pathLoop smfContext rest (idx + 1)
          (pool ++ builtPool idx k h.length [p]) g2
          (h ++ chainNodes h.length none (p.UPF.filterMap (resolve smfContext))) := by
  obtain ⟨g2, halloc, hg2⟩ := allocate_ok g k hg hk
  refine ⟨g2, hg2, ?_⟩
  have hfresh : ∀ e ∈ pool, e.1 ≠ k + 1 := fun e he => by
    have := hpool e he; omega
  simp only [pathLoop, halloc]
  rw [nodeLoop_path smfContext p.UPF hres]
  simp only []
  rw [set_fresh pool (k + 1) _ hfresh]
  by_cases hidx : idx = 0 <;> by_cases hn : p.UPF = [] <;>
    simp [builtPool, hidx, hn, NewDataPath]

theorem pathLoop_ok (smfContext : SMFContext) :
    ∀ (paths : List Path), allResolvable smfContext paths →
      ∀ (idx : Nat) (pool : DataPathPool) (g : IDGenerator) (h : Heap) (k : Nat),
        GenInv g k → k + paths.length ≤ MaxInt32 → (∀ e ∈ pool, e.1 ≤ k) →
        ∃ g2, GenInv g2 (k + paths.length) ∧
          pathLoop smfContext paths idx pool g h =
            .ok (pool ++ builtPool idx k h.length paths, g2,
                 h ++ builtHeap smfContext h.length paths)
  | [], _, idx, pool, g, h, k, hg, _, _ => ⟨g, hg, by simp [pathLoop, builtPool, builtHeap]⟩
  | p :: rest, hres, idx, pool, g, h, k, hg, hk, hpool => by
    have hp : ∀ n ∈ p.UPF, (resolve smfContext n).isSome = true :=
      hres p (List.mem_cons_self _ _)
    have hrest : allResolvable smfContext rest :=
      fun q hq => hres q (List.mem_cons_of_mem _ hq)
    have hlen : (p :: rest).length = rest.length + 1 := rfl
    obtain ⟨g2, hg2, hstep⟩ := pathLoop_step smfContext p rest hp idx pool g h k hg
      (by omega) hpool
    have hpool2 : ∀ e ∈ pool ++ builtPool idx k h.length [p], e.1 ≤ k + 1 := by
      intro e he
      rcases List.mem_append.mp he with he1 | he2
      · exact Nat.le_succ_of_le (hpool e he1)
      · simp [builtPool] at he2; subst he2; exact Nat.le_refl _
    obtain ⟨g3, hg3, hrec⟩ := pathLoop_ok smfContext rest hrest (idx + 1) _ g2 _ (k + 1)
      hg2 (by omega) hpool2
    refine ⟨g3, by rw [hlen, ← Nat.add_assoc k, Nat.add_right_comm]; exact hg3, ?_⟩
    rw [hstep, hrec]
    simp [builtPool, builtHeap, length_chainNodes,
      length_filterMap_resolve smfContext p.UPF hp]

theorem pathLoop_exhaust (smfContext : SMFContext) :
    ∀ (paths : List Path), allResolvable smfContext paths →
      ∀ (idx : Nat) (pool : DataPathPool) (g : IDGenerator) (h : Heap) (k : Nat),
        GenInv g k → MaxInt32 < k + paths.length → (∀ e ∈ pool, e.1 ≤ k) →
        pathLoop smfContext paths idx pool g h = .error .idExhausted
  | [], _, _, _, _, _, k, hg, hk, _ => by
    have := hg.2.2.2.2
    simp at hk; omega
  | p :: rest, hres, idx, pool, g, h, k, hg, hk, hpool => by
    have hp : ∀ n ∈ p.UPF, (resolve smfContext n).isSome = true :=
      hres p (List.mem_cons_self _ _)
    have hrest : allResolvable smfContext rest :=
      fun q hq => hres q (List.mem_cons_of_mem _ hq)
    have hlen : (p :: rest).length = rest.length + 1 := rfl
    have hle : k ≤ MaxInt32 := hg.2.2.2.2
    by_cases hfull : k = MaxInt32
    · subst hfull
      simp [pathLoop, allocate_full g hg]
    · obtain ⟨g2, hg2, hstep⟩ := pathLoop_step smfContext p rest hp idx pool g h k hg
        (by omega) hpool
      have hpool2 : ∀ e ∈ pool ++ builtPool idx k h.length [p], e.1 ≤ k + 1 := by
        intro e he
        rcases List.mem_append.mp he with he1 | he2
        · exact Nat.le_succ_of_le (hpool e he1)
        · simp [builtPool] at he2; subst he2; exact Nat.le_refl _
      rw [hstep]
      exact pathLoop_exhaust smfContext rest hrest (idx + 1) _ g2 _ (k + 1) hg2
        (by omega) hpool2

theorem followNext_none (h : Heap) : ∀ fuel, followNext h fuel none = []
  | 0 => rfl
  | _ + 1 => rfl

theorem followPrev_none (h : Heap) : ∀ fuel, followPrev h fuel none = []
  | 0 => rfl
  | _ + 1 => rfl

theorem followNext_chain (H : Heap) (base len : Nat)
    (hnext : ∀ i, i < len → ∃ nd, H[base + i]? = some nd ∧
      nd.next = if i + 1 < len then some (base + i + 1) else none) :
    ∀ (m i : Nat), i + m = len → ∀ fuel, m ≤ fuel →
      followNext H fuel (if i < len then some (base + i) else none) = List.range' (base + i) m
  | 0, i, him, fuel, _ => by
    have : ¬ i < len := by omega
    simp [this, followNext_none]
  | m + 1, i, him, fuel, hfuel => by
    have hi : i < len := by omega
    obtain ⟨f, rfl⟩ : ∃ f, fuel = f + 1 := ⟨fuel - 1, by omega⟩
    obtain ⟨nd, hnd, hndn⟩ := hnext i hi
    simp only [hi, if_true, followNext, hnd, Option.some_bind, hndn]
    have ih := followNext_chain H base len hnext m (i + 1) (by omega) f (by omega)
    rw [List.range'_succ, Nat.add_assoc] at *
    rw [ih]

theorem followPrev_chain (H : Heap) (base len : Nat)
    (hprev : ∀ i, i < len → ∃ nd, H[base + i]? = some nd ∧
      nd.prev = if i = 0 then none else some (base + i - 1)) :
    ∀ (i : Nat), i < len → ∀ fuel, i + 1 ≤ fuel →
      followPrev H fuel (some (base + i)) = (List.range' base (i + 1)).reverse
  | 0, hi, fuel, hfuel => by
    obtain ⟨f, rfl⟩ : ∃ f, fuel = f + 1 := ⟨fuel - 1, by omega⟩
    obtain ⟨nd, hnd, hndp⟩ := hprev 0 hi
    simp only [Nat.add_zero] at hnd
    simp [followPrev, hnd, hndp, followPrev_none]
  | i + 1, hi, fuel, hfuel => by
    obtain ⟨f, rfl⟩ : ∃ f, fuel = f + 1 := ⟨fuel - 1, by omega⟩
    obtain ⟨nd, hnd, hndp⟩ := hprev (i + 1) hi
    have ih := followPrev_chain H base len hprev i (by omega) f (by omega)
    have hsub : base + (i + 1) - 1 = base + i := by omega
    simp only [followPrev, hnd, Option.some_bind, hndp, hsub, Nat.succ_ne_zero, if_false,
      Nat.add_eq_zero, and_false, one_ne_zero]
    rw [ih, List.range'_1_concat base (i + 1), List.reverse_append]
    simp

theorem chainNodes_getElem : ∀ (ups : List UPNode) (base : Nat) (prev : Option NodePtr)
    (i : Nat) (up : UPNode), ups[i]? = some up →
      (chainNodes base prev ups)[i]? = some
        { UPF := up.UPF, UpLinkTunnel := {}, DownLinkTunnel := {},
          prev := if i = 0 then prev else some (base + i - 1),
          next := if i + 1 < ups.length then some (base + i + 1) else none }
  | [], _, _, _, _, h => by simp at h
  | u :: rest, base, prev, 0, up, h => by
    simp at h; subst h
    cases rest <;> simp [chainNodes]
  | u :: rest, base, prev, i + 1, up, h => by
    have h2 : rest[i]? = some up := by simpa using h
    have ih := chainNodes_getElem rest (base + 1) (some base) i up h2
    simp only [chainNodes, List.getElem?_cons_succ, ih, List.length_cons]
    have e1 : base + 1 + i - 1 = base + (i + 1) - 1 := by omega
    have e2 : base + 1 + i + 1 = base + (i + 1) + 1 := by omega
    have e3 : (i + 1 + 1 < rest.length + 1) ↔ (i + 1 < rest.length) := by omega
    have e4 : (if i = 0 then some base else some (base + 1 + i - 1)) =
        some (base + (i + 1) - 1) := by
      by_cases hi : i = 0
      · subst hi; simp
      · simp [hi, e1]
    simp only [e3, e4, e2, Nat.succ_ne_zero, if_false]

theorem filterMap_resolve_getElem (smfContext : SMFContext) :
    ∀ (names : List String), (∀ n ∈ names, (resolve smfContext n).isSome = true) →
      ∀ (i : Nat) (n : String), names[i]? = some n →
        ∃ up, resolve smfContext n = some up ∧
          (names.filterMap (resolve smfContext))[i]? = some up
  | [], _, _, _, h => by simp at h
  | m :: rest, hres, 0, n, h => by
    simp at h; subst h
    obtain ⟨up, hr⟩ := Option.isSome_iff_exists.mp (hres m (List.mem_cons_self _ _))
    exact ⟨up, hr, by simp [List.filterMap_cons, hr]⟩
  | m :: rest, hres, i + 1, n, h => by
    obtain ⟨um, hum⟩ := Option.isSome_iff_exists.mp (hres m (List.mem_cons_self _ _))
    have hrest : ∀ q ∈ rest, (resolve smfContext q).isSome = true :=
      fun q hq => hres q (List.mem_cons_of_mem _ hq)
    have h2 : rest[i]? = some n := by simpa using h
    obtain ⟨up, hr, hget⟩ := filterMap_resolve_getElem smfContext rest hrest i n h2
    exact ⟨up, hr, by simp [List.filterMap_cons, hum, hget]⟩

theorem nodesBefore_succ (q : Path) (rest : List Path) (j : Nat) :
    nodesBefore (q :: rest) (j + 1) = q.UPF.length + nodesBefore rest j := by
  simp [nodesBefore]

theorem builtPool_getElem : ∀ (paths : List Path) (idx k base j : Nat) (p : Path),
    paths[j]? = some p →
      (builtPool idx k base paths)[j]? = some
        (k + 1 + j,
          { IsDefaultPath := decide (idx + j = 0),
            Destination := ⟨p.DestinationIP, p.DestinationPort⟩,
            FirstDPNode := if p.UPF = [] then none else some (base + nodesBefore paths j) })
  | [], _, _, _, _, _, h => by simp at h
  | q :: rest, idx, k, base, 0, p, h => by
    simp at h; subst h
    simp [builtPool, nodesBefore]
  | q :: rest, idx, k, base, j + 1, p, h => by
    have h2 : rest[j]? = some p := by simpa using h
    have ih := builtPool_getElem rest (idx + 1) (k + 1) (base + q.UPF.length) j p h2
    simp only [builtPool, List.getElem?_cons_succ, ih, nodesBefore_succ]
    have e1 : k + 1 + 1 + j = k + 1 + (j + 1) := by omega
    have e2 : idx + 1 + j = idx + (j + 1) := by omega
    have e3 : base + q.UPF.length + nodesBefore rest j =
        base + (q.UPF.length + nodesBefore rest j) := by omega
    rw [e1, e2, e3]

theorem length_builtPool : ∀ (paths : List Path) (idx k base : Nat),
    (builtPool idx k base paths).length = paths.length
  | [], _, _, _ => rfl
  | _ :: rest, idx, k, base => by simp [builtPool, length_builtPool rest]

theorem keys_builtPool : ∀ (paths : List Path) (idx k base : Nat),
    (builtPool idx k base paths).map Prod.fst = List.range' (k + 1) paths.length
  | [], _, _, _ => rfl
  | _ :: rest, idx, k, base => by
    simp [builtPool, keys_builtPool rest, List.range'_succ]

theorem builtPool_not_default : ∀ (paths : List Path) (idx k base : Nat),
    ∀ e ∈ builtPool (idx + 1) k base paths, e.2.IsDefaultPath = false
  | [], _, _, _, e, he => by simp [builtPool] at he
  | q :: rest, idx, k, base, e, he => by
    simp only [builtPool, List.mem_cons] at he
    rcases he with rfl | he2
    · simp
    · exact builtPool_not_default rest (idx + 1) (k + 1) _ e he2

theorem length_builtHeap (smfContext : SMFContext) :
    ∀ (paths : List Path), allResolvable smfContext paths → ∀ (base : Nat),
      (builtHeap smfContext base paths).length = nodesBefore paths paths.length
  | [], _, _ => rfl
  | q :: rest, hres, base => by
    have hq : ∀ n ∈ q.UPF, (resolve smfContext n).isSome = true :=
      hres q (List.mem_cons_self _ _)
    have hrest : allResolvable smfContext rest :=
      fun r hr => hres r (List.mem_cons_of_mem _ hr)
    simp [builtHeap, length_chainNodes, length_filterMap_resolve smfContext q.UPF hq,
      length_builtHeap smfContext rest hrest, nodesBefore_succ]

theorem builtHeap_split (smfContext : SMFContext) :
    ∀ (paths : List Path), allResolvable smfContext paths →
      ∀ (base j : Nat) (p : Path), paths[j]? = some p →
        ∃ A B, builtHeap smfContext base paths =
            A ++ (chainNodes (base + nodesBefore paths j) none
              (p.UPF.filterMap (resolve smfContext)) ++ B) ∧
          A.length = nodesBefore paths j
  | [], _, _, _, _, h => by simp at h
  | q :: rest, hres, base, 0, p, h => by
    simp at h; subst h
    exact ⟨[], builtHeap smfContext (base + q.UPF.length) rest, by simp [builtHeap, nodesBefore],
      by simp [nodesBefore]⟩
  | q :: rest, hres, base, j + 1, p, h => by
    have hq : ∀ n ∈ q.UPF, (resolve smfContext n).isSome = true :=
      hres q (List.mem_cons_self _ _)
    have hrest : allResolvable smfContext rest :=
      fun r hr => hres r (List.mem_cons_of_mem _ hr)
    have h2 : rest[j]? = some p := by simpa using h
    obtain ⟨A, B, hAB, hA⟩ := builtHeap_split smfContext rest hrest (base + q.UPF.length) j p h2
    refine ⟨chainNodes base none (q.UPF.filterMap (resolve smfContext)) ++ A, B, ?_, ?_⟩
    · simp only [builtHeap, hAB, nodesBefore_succ, List.append_assoc, Nat.add_assoc]
    · simp [length_chainNodes, length_filterMap_resolve smfContext q.UPF hq, hA,
        nodesBefore_succ]

theorem getElem?_mid {α : Type} (h A C B : List α) (i : Nat) (hi : i < C.length) :
    (h ++ (A ++ (C ++ B)))[h.length + A.length + i]? = C[i]? := by
  rw [List.getElem?_append_right (by omega)]
  rw [List.getElem?_append_right (by omega)]
  rw [List.getElem?_append_left (by omega)]
  congr 1
  omega

/-- The result of a build whose names all resolve, in closed form. -/
theorem newUEPreConfigPaths_ok (smfContext : SMFContext) (h : Heap) (SUPI : String)
    (paths : List Path) (hres : allResolvable smfContext paths)
    (hlen : paths.length ≤ MaxInt32) :
    ∃ g2, NewUEPreConfigPaths smfContext h SUPI paths =
      .ok ({ DataPathPool := builtPool 0 0 h.length paths, PathIDGenerator := g2 },
           h ++ builtHeap smfContext h.length paths) := by
  obtain ⟨g2, _, hloop⟩ := pathLoop_ok smfContext paths hres 0 NewDataPathPool
    (NewGenerator 1 MaxInt32) h 0 genInv_fresh (by omega) (by intro e he; cases he)
  refine ⟨g2, ?_⟩
  simp only [NewUEPreConfigPaths, hloop]
  simp [NewDataPathPool]

/-! ## Path graph: the claims -/

/-- C1: when some node name of some spec does not resolve (it is not a key of
`UPNodes`, or `UserPlaneInformation` is nil), `NewUEPreConfigPaths` returns an
error and no pool, wherever in the list the name stands. -/
theorem NewUEPreConfigPaths_unresolved (smfContext : SMFContext) (h : Heap) (SUPI : String)
    (paths : List Path)
    (hbad : ∃ p ∈ paths, ∃ n ∈ p.UPF, resolve smfContext n = none) :
    ∃ err, NewUEPreConfigPaths smfContext h SUPI paths = .error err := by
  obtain ⟨err, herr⟩ := pathLoop_err smfContext paths hbad 0 NewDataPathPool
    (NewGenerator 1 MaxInt32) h
  exact ⟨err, by simp [NewUEPreConfigPaths, herr]⟩

/-- C1 at a list whose second spec has an unknown name between two known ones,
and at a nil inventory. -/
theorem NewUEPreConfigPaths_unresolved_witness :
    (∃ p ∈ unresolvedPaths, ∃ n ∈ p.UPF, resolve sampleContext n = none) ∧
    (∃ err, NewUEPreConfigPaths sampleContext [] "imsi-1" unresolvedPaths = .error err) ∧
    NewUEPreConfigPaths sampleContext [] "imsi-1" unresolvedPaths =
      .error (.upNodeNotFound "upf9") ∧
    NewUEPreConfigPaths ⟨none⟩ [] "imsi-1" samplePaths = .error .upiNil :=
  ⟨by decide,
   NewUEPreConfigPaths_unresolved sampleContext [] "imsi-1" unresolvedPaths (by decide),
   by rfl, by rfl⟩

/-- C2, as stated, fails at the empty list of specs: its names all resolve,
the build succeeds, and the pool has no default path. -/
theorem NewUEPreConfigPaths_empty_no_default :
    allResolvable sampleContext [] ∧
    ∃ r h2, NewUEPreConfigPaths sampleContext [] "imsi-1" [] = .ok (r, h2) ∧
      (r.DataPathPool.filter (fun e => e.2.IsDefaultPath)).length = 0 :=
  ⟨by decide, _, _, rfl, rfl⟩

/-- C2, amended: for a non-empty list of at most `MaxInt32` specs whose names
all resolve, the pool has exactly one default path; it is the entry of the
first id, built from the first spec, and no other entry is default. -/
theorem NewUEPreConfigPaths_default (smfContext : SMFContext) (h : Heap) (SUPI : String)
    (p : Path) (ps : List Path) (hres : allResolvable smfContext (p :: ps))
    (hlen : (p :: ps).length ≤ MaxInt32) :
    ∃ r h2 dp rest, NewUEPreConfigPaths smfContext h SUPI (p :: ps) = .ok (r, h2) ∧
      r.DataPathPool = (1, dp) :: rest ∧
      dp.IsDefaultPath = true ∧
      dp.Destination = ⟨p.DestinationIP, p.DestinationPort⟩ ∧
      dp.FirstDPNode = (if p.UPF = [] then none else some h.length) ∧
      (∀ e ∈ rest, e.2.IsDefaultPath = false) ∧
      (r.DataPathPool.filter (fun e => e.2.IsDefaultPath)).length = 1 := by
  obtain ⟨g2, hok⟩ := newUEPreConfigPaths_ok smfContext h SUPI (p :: ps) hres hlen
  have hrest := builtPool_not_default ps 0 1 (h.length + p.UPF.length)
  refine ⟨_, _, _, _, hok, rfl, rfl, rfl, rfl, hrest, ?_⟩
  have hfil : (builtPool (0 + 1) (0 + 1) (h.length + p.UPF.length) ps).filter
      (fun e => e.2.IsDefaultPath) = [] := by
    rw [List.filter_eq_nil_iff]
    intro e he
    simp [hrest e he]
  simp only [builtPool, decide_True, List.filter_cons_of_pos, hfil, List.length_singleton]

/-- C2 amended, on three specs. -/
theorem NewUEPreConfigPaths_default_witness :
    ∃ r h2 dp rest, NewUEPreConfigPaths sampleContext [] "imsi-1" samplePaths = .ok (r, h2) ∧
      r.DataPathPool = (1, dp) :: rest ∧
      dp.IsDefaultPath = true ∧
      dp.Destination = ⟨"10.0.0.1", "80"⟩ ∧
      dp.FirstDPNode = (if ["upf1", "upf2", "upf3"] = [] then none else some ([] : Heap).length) ∧
      (∀ e ∈ rest, e.2.IsDefaultPath = false) ∧
      (r.DataPathPool.filter (fun e => e.2.IsDefaultPath)).length = 1 :=
  NewUEPreConfigPaths_default sampleContext [] "imsi-1"
    ⟨"10.0.0.1", "80", ["upf1", "upf2", "upf3"]⟩
    [⟨"10.0.0.2", "443", ["upf2"]⟩, ⟨"10.0.0.3", "22", []⟩] (by decide) (by decide)

/-- C3: for `n` specs whose names all resolve, with `n` at most `MaxInt32`,
the pool has `n` entries with pairwise distinct ids in `[1, MaxInt32]`, the
entry of the `k`-th spec carrying its destination; with more specs than ids
the build returns the exhaustion error, and any error of `Allocate` ends the
loop with that error. -/
theorem NewUEPreConfigPaths_ids (smfContext : SMFContext) (h : Heap) (SUPI : String)
    (paths : List Path) (hres : allResolvable smfContext paths) :
    (paths.length ≤ MaxInt32 →
      ∃ r h2, NewUEPreConfigPaths smfContext h SUPI paths = .ok (r, h2) ∧
        r.DataPathPool.length = paths.length ∧
        (r.DataPathPool.map Prod.fst).Nodup ∧
        (∀ e ∈ r.DataPathPool, 1 ≤ e.1 ∧ e.1 ≤ MaxInt32) ∧
        ∀ k p, paths[k]? = some p →
          ∃ dp, r.DataPathPool[k]? = some (k + 1, dp) ∧
            dp.Destination = ⟨p.DestinationIP, p.DestinationPort⟩) ∧
    (MaxInt32 < paths.length →
      NewUEPreConfigPaths smfContext h SUPI paths = .error .idExhausted) ∧
    (∀ (p : Path) (rest : List Path) (idx : Nat) (pool : DataPathPool) (g : IDGenerator)
        (h1 : Heap) (err : BuildError), g.Allocate = .error err →
      pathLoop smfContext (p :: rest) idx pool g h1 = .error err) := by
  refine ⟨?_, ?_, ?_⟩
  · intro hlen
    obtain ⟨g2, hok⟩ := newUEPreConfigPaths_ok smfContext h SUPI paths hres hlen
    refine ⟨_, _, hok, length_builtPool _ _ _ _, ?_, ?_, ?_⟩
    · simp only [keys_builtPool]
      exact List.nodup_range' _ _
    · intro e he
      have hk : e.1 ∈ (builtPool 0 0 h.length paths).map Prod.fst :=
        List.mem_map_of_mem _ he
      rw [keys_builtPool, List.mem_range'_1] at hk
      omega
    · intro k p hk
      have hget := builtPool_getElem paths 0 0 h.length k p hk
      rw [Nat.zero_add, Nat.add_comm 1 k] at hget
      exact ⟨_, hget, rfl⟩
  · intro hlen
    have hloop := pathLoop_exhaust smfContext paths hres 0 NewDataPathPool
      (NewGenerator 1 MaxInt32) h 0 genInv_fresh (by omega) (by intro e he; cases he)
    simp [NewUEPreConfigPaths, hloop]
  · intro p rest idx pool g h1 err herr
    simp [pathLoop, herr]

/-- C3 on three specs: ids 1, 2, 3. -/
theorem NewUEPreConfigPaths_ids_witness :
    allResolvable sampleContext samplePaths ∧ samplePaths.length ≤ MaxInt32 ∧
    ∃ r h2, NewUEPreConfigPaths sampleContext [] "imsi-1" samplePaths = .ok (r, h2) ∧
      r.DataPathPool.length = samplePaths.length ∧
      (r.DataPathPool.map Prod.fst).Nodup ∧
      (∀ e ∈ r.DataPathPool, 1 ≤ e.1 ∧ e.1 ≤ MaxInt32) ∧
      ∀ k p, samplePaths[k]? = some p →
        ∃ dp, r.DataPathPool[k]? = some (k + 1, dp) ∧
          dp.Destination = ⟨p.DestinationIP, p.DestinationPort⟩ :=
  ⟨by decide, by decide,
   (NewUEPreConfigPaths_ids sampleContext [] "imsi-1" samplePaths (by decide)).1 (by decide)⟩

/-- C4: in a build whose names all resolve, the nodes of the `j`-th spec are
created after all earlier ones, one per name in spec order, at the arena
indices from `base` on; `FirstDPNode` is the first of them (nil for a spec
without names); each node has the node before it as predecessor and the node
after it as successor; following successors from `FirstDPNode` visits them in
order and following predecessors from the last visits them in reverse. -/
theorem NewUEPreConfigPaths_chain (smfContext : SMFContext) (h : Heap) (SUPI : String)
    (paths : List Path) (hres : allResolvable smfContext paths)
    (hlen : paths.length ≤ MaxInt32) :
    ∃ r h2, NewUEPreConfigPaths smfContext h SUPI paths = .ok (r, h2) ∧
      (∃ added, h2 = h ++ added ∧ added.length = nodesBefore paths paths.length) ∧
      ∀ j p base, paths[j]? = some p → base = h.length + nodesBefore paths j →
        ∃ dp, r.DataPathPool[j]? = some (j + 1, dp) ∧
          dp.FirstDPNode = (if p.UPF = [] then none else some base) ∧
          (∀ i n, p.UPF[i]? = some n → ∃ up, resolve smfContext n = some up ∧
            h2[base + i]? = some (DataPathNode.mk up.UPF {} {}
              (if i = 0 then none else some (base + i - 1))
              (if i + 1 < p.UPF.length then some (base + i + 1) else none))) ∧
          (∀ fuel, p.UPF.length ≤ fuel →
            followNext h2 fuel dp.FirstDPNode = List.range' base p.UPF.length) ∧
          (∀ fuel, p.UPF.length ≤ fuel →
            followPrev h2 fuel
                (if p.UPF = [] then none else some (base + p.UPF.length - 1)) =
              (List.range' base p.UPF.length).reverse) := by
  obtain ⟨g2, hok⟩ := newUEPreConfigPaths_ok smfContext h SUPI paths hres hlen
  refine ⟨_, _, hok, ⟨_, rfl, length_builtHeap smfContext paths hres _⟩, ?_⟩
  intro j p base hj hbase
  have hp : ∀ n ∈ p.UPF, (resolve smfContext n).isSome = true :=
    hres p (List.getElem?_mem hj)
  obtain ⟨A, B, hAB, hA⟩ := builtHeap_split smfContext paths hres h.length j p hj
  have hups : (p.UPF.filterMap (resolve smfContext)).length = p.UPF.length :=
    length_filterMap_resolve smfContext p.UPF hp
  have hnode : ∀ i n, p.UPF[i]? = some n → ∃ up, resolve smfContext n = some up ∧
      (h ++ builtHeap smfContext h.length paths)[base + i]? = some (DataPathNode.mk up.UPF {} {}
        (if i = 0 then none else some (base + i - 1))
        (if i + 1 < p.UPF.length then some (base + i + 1) else none)) := by
    intro i n hi
    obtain ⟨up, hr, hget⟩ := filterMap_resolve_getElem smfContext p.UPF hp i n hi
    refine ⟨up, hr, ?_⟩
    obtain ⟨hilt, _⟩ := List.getElem?_eq_some_iff.mp hi
    have hchain := chainNodes_getElem _ (h.length + nodesBefore paths j) none i up hget
    rw [hAB, hbase, ← hA, getElem?_mid h A _ B i (by rw [length_chainNodes, hups]; exact hilt),
      hA, hchain, hups]
  have hget := builtPool_getElem paths 0 0 h.length j p hj
  rw [Nat.zero_add, Nat.add_comm 1 j, ← hbase] at hget
  refine ⟨_, hget, rfl, hnode, ?_, ?_⟩
  · intro fuel hfuel
    have hnext : ∀ i, i < p.UPF.length → ∃ nd,
        (h ++ builtHeap smfContext h.length paths)[base + i]? = some nd ∧
          nd.next = if i + 1 < p.UPF.length then some (base + i + 1) else none := by
      intro i hi
      obtain ⟨up, _, hnd⟩ := hnode i p.UPF[i] (List.getElem?_eq_getElem hi)
      exact ⟨_, hnd, rfl⟩
    have hch := followNext_chain _ base p.UPF.length hnext p.UPF.length 0 (by omega) fuel hfuel
    simp only [Nat.add_zero] at hch
    rw [← hch]
    by_cases hn : p.UPF = []
    · simp [hn]
    · have hpos : 0 < p.UPF.length := List.length_pos.mpr hn
      simp [hn, hpos]
  · intro fuel hfuel
    by_cases hn : p.UPF = []
    · simp [hn, followPrev_none]
    · have hpos : 0 < p.UPF.length := List.length_pos.mpr hn
      have hprev : ∀ i, i < p.UPF.length → ∃ nd,
          (h ++ builtHeap smfContext h.length paths)[base + i]? = some nd ∧
            nd.prev = if i = 0 then none else some (base + i - 1) := by
        intro i hi
        obtain ⟨up, _, hnd⟩ := hnode i p.UPF[i] (List.getElem?_eq_getElem hi)
        exact ⟨_, hnd, rfl⟩
      have hch := followPrev_chain _ base p.UPF.length hprev (p.UPF.length - 1) (by omega)
        fuel (by omega)
      have e1 : base + (p.UPF.length - 1) = base + p.UPF.length - 1 := by omega
      have e2 : p.UPF.length - 1 + 1 = p.UPF.length := by omega
      rw [e1, e2] at hch
      simp only [hn, if_false]
      exact hch

/-- C4 on three specs, the second built on an arena that already holds the
three nodes of the first. -/
theorem NewUEPreConfigPaths_chain_witness :
    allResolvable sampleContext samplePaths ∧ samplePaths.length ≤ MaxInt32 ∧
    NewUEPreConfigPaths sampleContext [] "imsi-1" samplePaths =
      .ok (⟨[(1, ⟨true, ⟨"10.0.0.1", "80"⟩, some 0⟩), (2, ⟨false, ⟨"10.0.0.2", "443"⟩, some 3⟩),
             (3, ⟨false, ⟨"10.0.0.3", "22"⟩, none⟩)],
            ⟨1, MaxInt32, MaxInt32, 3, [2, 1, 0]⟩⟩,
           [⟨⟨1⟩, {}, {}, none, some 1⟩, ⟨⟨2⟩, {}, {}, some 0, some 2⟩,
            ⟨⟨3⟩, {}, {}, some 1, none⟩, ⟨⟨2⟩, {}, {}, none, none⟩]) ∧
    ∃ r h2, NewUEPreConfigPaths sampleContext [] "imsi-1" samplePaths = .ok (r, h2) ∧
      (∃ added, h2 = [] ++ added ∧ added.length = nodesBefore samplePaths samplePaths.length) ∧
      ∀ j p base, samplePaths[j]? = some p →
        base = ([] : Heap).length + nodesBefore samplePaths j →
        ∃ dp, r.DataPathPool[j]? = some (j + 1, dp) ∧
          dp.FirstDPNode = (if p.UPF = [] then none else some base) ∧
          (∀ i n, p.UPF[i]? = some n → ∃ up, resolve sampleContext n = some up ∧
            h2[base + i]? = some (DataPathNode.mk up.UPF {} {}
              (if i = 0 then none else some (base + i - 1))
              (if i + 1 < p.UPF.length then some (base + i + 1) else none))) ∧
          (∀ fuel, p.UPF.length ≤ fuel →
            followNext h2 fuel dp.FirstDPNode = List.range' base p.UPF.length) ∧
          (∀ fuel, p.UPF.length ≤ fuel →
            followPrev h2 fuel
                (if p.UPF = [] then none else some (base + p.UPF.length - 1)) =
              (List.range' base p.UPF.length).reverse) :=
  ⟨by decide, by decide, by rfl,
   NewUEPreConfigPaths_chain sampleContext [] "imsi-1" samplePaths (by decide) (by decide)⟩

/-! ## Registration and keepalive: lemmas -/

theorem startKeepAliveTimer_some (p : NfProfile) (s : ServiceState) :
    StartKeepAliveTimer (some p) s =
      .ret () { s with KeepAliveTimer := some (intervalOf p),
                       trace := s.trace ++ timerEvents s (intervalOf p) } := by
  cases ht : s.KeepAliveTimer <;> by_cases hz : p.HeartBeatTimer = 0 <;>
    simp [StartKeepAliveTimer, StopKeepAliveTimer, ServiceState.log, timerEvents, intervalOf,
      ht, hz]

theorem timerEvents_live (t : Int) (d : Nat) (r : Bool) (tr : List Event) (secs : Int) :
    timerEvents ⟨some t, d, r, tr⟩ secs = [.stopTimer, .armTimer secs] := rfl

theorem startKeepAliveTimer_none (s : ServiceState) :
    StartKeepAliveTimer none s = .fault (StopKeepAliveTimer s) := rfl

theorem executions_append : ∀ (a b : List Event),
    executions (a ++ b) = executions a + executions b
  | [], b => by simp [executions]
  | e :: a, b => by
    cases e <;> simp [executions, executions_append a b] <;> omega

theorem executions_timerEvents (s : ServiceState) (secs : Int) :
    executions (timerEvents s secs) = 0 := by
  cases ht : s.KeepAliveTimer <;> simp [timerEvents, ht, executions]

theorem register_not_mem_timerEvents (s : ServiceState) (secs : Int) :
    Event.register ∉ timerEvents s secs := by
  cases ht : s.KeepAliveTimer <;> simp [timerEvents, ht]

theorem stopKeepAliveTimer_trace (s : ServiceState) :
    ∃ evs, (StopKeepAliveTimer s).trace = s.trace ++ evs ∧ executions evs = 0 ∧
      (StopKeepAliveTimer s).done = s.done ∧
      (StopKeepAliveTimer s).refreshNrfRegistration = s.refreshNrfRegistration := by
  cases ht : s.KeepAliveTimer with
  | none => exact ⟨[], by simp [StopKeepAliveTimer, ht], rfl, by simp [StopKeepAliveTimer, ht],
      by simp [StopKeepAliveTimer, ht]⟩
  | some t => exact ⟨[.stopTimer], by simp [StopKeepAliveTimer, ht, ServiceState.log], rfl,
      by simp [StopKeepAliveTimer, ht, ServiceState.log],
      by simp [StopKeepAliveTimer, ht, ServiceState.log]⟩

theorem status_class (x : Int) :
    x.tdiv 100 = 5 ↔ (500 ≤ x ∧ x ≤ 599) := by
  rcases Int.lt_or_le x 0 with hneg | hpos
  · have h1 : (-x).tdiv 100 = -(x.tdiv 100) := Int.neg_tdiv x 100
    have h2 : 0 ≤ (-x).tdiv 100 := Int.tdiv_nonneg (by omega) (by decide)
    constructor
    · intro h5; omega
    · intro h; omega
  · rw [Int.tdiv_eq_ediv hpos (by decide)]
    omega

theorem intanceRun_idle (f : ServiceState → Option NfProfile) (s : ServiceState)
    (hdone : s.done = 0) (p : NfProfile)
    (hf : f (({ s with done := 1 } : ServiceState).log (.work 1)) = some p) :
    intanceRun f s =
      .ret false { s with KeepAliveTimer := some (intervalOf p),
                          trace := s.trace ++ .work 1 :: timerEvents s (intervalOf p) } := by
  have h1 : ¬ s.done = 1 := by omega
  simp only [intanceRun, h1, hdone, if_true, if_false, hf, startKeepAliveTimer_some]
  simp [ServiceState.log, timerEvents, hdone]

theorem intanceRun_idle_nil (f : ServiceState → Option NfProfile) (s : ServiceState)
    (hdone : s.done = 0)
    (hf : f (({ s with done := 1 } : ServiceState).log (.work 1)) = none) :
    ∃ s2, intanceRun f s = .fault s2 := by
  have h1 : ¬ s.done = 1 := by omega
  simp only [intanceRun, h1, hdone, if_true, if_false, hf, startKeepAliveTimer_none]
  exact ⟨_, rfl⟩

/-! ## Registration and keepalive: the claims -/

/-- C5, as stated, fails for a work function that returns a nil profile: with
no run in progress the call runs `f` once with the flag at 1 and then faults
in `StartKeepAliveTimer`, so it has executed `f` and does not return false. -/
theorem intanceRun_nil_profile_faults :
    liveState.done = 0 ∧
    intanceRun (fun _ => none) liveState =
      .fault { liveState with KeepAliveTimer := none, trace := [.work 1, .stopTimer] } ∧
    (intanceRun (fun _ => none) liveState).returned = false ∧
    ¬ ∃ s2, intanceRun (fun _ => none) liveState = .ret false s2 := by
  have hrun : intanceRun (fun _ => none) liveState =
      .fault { liveState with KeepAliveTimer := none, trace := [.work 1, .stopTimer] } := by
    decide
  refine ⟨rfl, hrun, by decide, ?_⟩
  rintro ⟨s2, hs2⟩
  rw [hrun] at hs2
  cases hs2

/-- C5, amended: with the flag at 0 or 1, `intanceRun f` returns true exactly
when the flag is 1, and then leaves the state as it is and does not call `f`;
when it returns false it has called `f` once, with the flag at 1, and has
reset the flag to 0; with the flag at 0 and `f` giving a profile that is not
nil it returns false; on true `SendNrfRegistration` only sets
`refreshNrfRegistration` and returns. -/
theorem intanceRun_single_flight (f : ServiceState → Option NfProfile)
    (reg : RegistrationResult) (s : ServiceState) (hflag : s.done = 0 ∨ s.done = 1) :
    ((∃ s2, intanceRun f s = .ret true s2) ↔ s.done = 1) ∧
    (s.done = 1 → intanceRun f s = .ret true s) ∧
    (∀ s2, intanceRun f s = .ret false s2 →
      s.done = 0 ∧ s2.done = 0 ∧
        ∃ rest, s2.trace = s.trace ++ .work 1 :: rest ∧ executions rest = 0) ∧
    (s.done = 0 → (f (({ s with done := 1 } : ServiceState).log (.work 1))).isSome = true →
      ∃ s2, intanceRun f s = .ret false s2) ∧
    (s.done = 1 →
      SendNrfRegistration f reg s = .ret () { s with refreshNrfRegistration := true }) := by
  rcases hflag with h0 | h1
  · have hne : ¬ s.done = 1 := by omega
    cases hf : f (({ s with done := 1 } : ServiceState).log (.work 1)) with
    | none =>
      obtain ⟨s3, hs3⟩ := intanceRun_idle_nil f s h0 hf
      refine ⟨⟨?_, fun h => absurd h hne⟩, fun h => absurd h hne, ?_,
        fun _ h => by simp at h, fun h => absurd h hne⟩
      · rintro ⟨s2, hs2⟩; rw [hs3] at hs2; cases hs2
      · intro s2 hs2; rw [hs3] at hs2; cases hs2
    | some p =>
      have hrun := intanceRun_idle f s h0 p hf
      refine ⟨⟨?_, fun h => absurd h hne⟩, fun h => absurd h hne, ?_,
        fun _ _ => ⟨_, hrun⟩, fun h => absurd h hne⟩
      · rintro ⟨s2, hs2⟩; rw [hrun] at hs2; cases hs2
      · intro s2 hs2
        rw [hrun] at hs2
        injection hs2 with _ hs2
        subst hs2
        exact ⟨h0, h0, _, rfl, executions_timerEvents _ _⟩
  · have hrun : intanceRun f s = .ret true s := by simp [intanceRun, h1]
    refine ⟨⟨fun _ => h1, fun _ => ⟨s, hrun⟩⟩, fun _ => hrun, ?_, fun h => by omega, ?_⟩
    · intro s2 hs2; rw [hrun] at hs2; cases hs2
    · intro _; simp [SendNrfRegistration, hrun]

/-- C5 with a run in progress, and with none. -/
theorem intanceRun_single_flight_witness :
    ((∃ s2, intanceRun (fun _ => some ⟨0⟩) { liveState with done := 1 } = .ret true s2) ↔
      (1 : Nat) = 1) ∧
    intanceRun (fun _ => some ⟨0⟩) { liveState with done := 1 } =
      .ret true { liveState with done := 1 } ∧
    intanceRun (fun _ => some ⟨0⟩) liveState =
      .ret false { liveState with trace := [.work 1, .stopTimer, .armTimer 30] } :=
  ⟨(intanceRun_single_flight (fun _ => some ⟨0⟩) (none, none) { liveState with done := 1 }
      (Or.inr rfl)).1,
   by decide, by decide⟩

/-- C6, as stated, fails: with no run in progress, a rerun requested and a
work function that returns a nil profile, the call faults after the first run,
with `refreshNrfRegistration` still set and no rerun made; and when the rerun
is answered with neither a profile nor an error the call faults after it. -/
theorem SendNrfRegistration_nil_profile_faults :
    SendNrfRegistration (fun _ => none) (some ⟨7⟩, none)
        { liveState with refreshNrfRegistration := true } =
      .fault { liveState with KeepAliveTimer := none, refreshNrfRegistration := true,
                              trace := [.work 1, .stopTimer] } ∧
    SendNrfRegistration (fun _ => some ⟨0⟩) (none, none)
        { liveState with refreshNrfRegistration := true } =
      .fault { liveState with KeepAliveTimer := none,
                              trace := [.work 1, .stopTimer, .armTimer 30, .register,
                                        .stopTimer] } := by
  decide

/-- C6, amended: a call of `SendNrfRegistration` with no run in progress, whose
work function gives a profile that is not nil, runs the work once with the
flag at 1; then, when `refreshNrfRegistration` is set on the return of
`intanceRun`, it clears it and registers exactly once more, and it returns
when that registration gives an error or a profile; when the flag is not set
it runs nothing more and returns; in all it runs the work at most twice and
ends with `refreshNrfRegistration` cleared and the flag at 0. -/
theorem SendNrfRegistration_idle (f : ServiceState → Option NfProfile)
    (reg : RegistrationResult) (s : ServiceState) (hdone : s.done = 0)
    (hf : (f (({ s with done := 1 } : ServiceState).log (.work 1))).isSome = true) :
    ∃ s1 new, intanceRun f s = .ret false s1 ∧
      (SendNrfRegistration f reg s).state.trace = s.trace ++ .work 1 :: new ∧
      (s1.refreshNrfRegistration = true →
        executions new = 1 ∧ Event.register ∈ new ∧
        (reg.1.isSome = true ∨ reg.2.isSome = true →
          (SendNrfRegistration f reg s).returned = true)) ∧
      (s1.refreshNrfRegistration = false →
        executions new = 0 ∧ (SendNrfRegistration f reg s).returned = true) ∧
      executions (.work 1 :: new) ≤ 2 ∧
      (SendNrfRegistration f reg s).state.refreshNrfRegistration = false ∧
      (SendNrfRegistration f reg s).state.done = 0 := by
  obtain ⟨p, hp⟩ := Option.isSome_iff_exists.mp hf
  have hrun := intanceRun_idle f s hdone p hp
  have ht := executions_timerEvents s (intervalOf p)
  cases hr : s.refreshNrfRegistration with
  | false =>
    refine ⟨_, timerEvents s (intervalOf p), hrun, ?_, by simp [hr], ?_, ?_, ?_, ?_⟩ <;>
      simp [SendNrfRegistration, hrun, hr, Outcome.state, Outcome.returned, executions, ht, hdone]
  | true =>
    obtain ⟨prof, err⟩ := reg
    cases err with
    | some e =>
      refine ⟨_, timerEvents s (intervalOf p) ++ [.register], hrun,
          ?_, ?_, by simp [hr], ?_, ?_, ?_⟩ <;>
        simp [SendNrfRegistration, hrun, hr, Outcome.state, Outcome.returned, ServiceState.log,
          executions, executions_append, ht, hdone]
    | none =>
      cases prof with
      | none =>
        refine ⟨_, timerEvents s (intervalOf p) ++ [.register] ++ [.stopTimer], hrun,
            ?_, ?_, by simp [hr], ?_, ?_, ?_⟩ <;>
          simp [SendNrfRegistration, hrun, hr, Outcome.state, ServiceState.log, executions,
            executions_append, ht, hdone, startKeepAliveTimer_none, StopKeepAliveTimer]
      | some q =>
        refine ⟨_, timerEvents s (intervalOf p) ++ [.register] ++
            [.stopTimer, .armTimer (intervalOf q)], hrun, ?_, ?_, by simp [hr], ?_, ?_, ?_⟩ <;>
          simp [SendNrfRegistration, hrun, hr, Outcome.state, Outcome.returned,
            ServiceState.log, executions, executions_append, ht, hdone,
            startKeepAliveTimer_some, timerEvents_live]

/-- C6 amended, with a rerun requested: the work runs twice and the call
returns. -/
theorem SendNrfRegistration_idle_witness :
    SendNrfRegistration (fun _ => some ⟨0⟩) (some ⟨7⟩, none)
        { liveState with refreshNrfRegistration := true } =
      .ret () { liveState with KeepAliveTimer := some 7,
                               trace := [.work 1, .stopTimer, .armTimer 30, .register,
                                         .stopTimer, .armTimer 7] } ∧
    ∃ s1 new, intanceRun (fun _ => some ⟨0⟩)
        { liveState with refreshNrfRegistration := true } = .ret false s1 ∧
      (SendNrfRegistration (fun _ => some ⟨0⟩) (some ⟨7⟩, none)
        { liveState with refreshNrfRegistration := true }).state.trace =
          ([] : List Event) ++ .work 1 :: new ∧
      (s1.refreshNrfRegistration = true →
        executions new = 1 ∧ Event.register ∈ new ∧
        ((some ⟨7⟩ : Option NfProfile).isSome = true ∨ (none : Option GoError).isSome = true →
          (SendNrfRegistration (fun _ => some ⟨0⟩) (some ⟨7⟩, none)
            { liveState with refreshNrfRegistration := true }).returned = true)) ∧
      (s1.refreshNrfRegistration = false →
        executions new = 0 ∧
        (SendNrfRegistration (fun _ => some ⟨0⟩) (some ⟨7⟩, none)
          { liveState with refreshNrfRegistration := true }).returned = true) ∧
      executions (.work 1 :: new) ≤ 2 ∧
      (SendNrfRegistration (fun _ => some ⟨0⟩) (some ⟨7⟩, none)
        { liveState with refreshNrfRegistration := true }).state.refreshNrfRegistration = false ∧
      (SendNrfRegistration (fun _ => some ⟨0⟩) (some ⟨7⟩, none)
        { liveState with refreshNrfRegistration := true }).state.done = 0 :=
  ⟨by decide,
   SendNrfRegistration_idle (fun _ => some ⟨0⟩) (some ⟨7⟩, none)
      { liveState with refreshNrfRegistration := true } rfl rfl⟩

theorem getLast_timerEvents (s : ServiceState) (secs : Int) :
    (s.trace ++ timerEvents s secs).getLast? = some (.armTimer secs) := by
  cases ht : s.KeepAliveTimer <;> simp [timerEvents, ht, List.getLast?_append]

/-- What `UpdateNF` does on a live timer when the refresh leads to a re-registration. -/
theorem updateNF_register (upd : UpdateResult) (reg : RegistrationResult) (s : ServiceState)
    (t : Int) (hlive : s.KeepAliveTimer = some t)
    (hre : (∃ pd, upd.2.1 = some pd ∧
        ((500 ≤ pd.Status ∧ pd.Status ≤ 599) ∨ pd.Status = 404 ∨ pd.Status = 400)) ∨
      (upd.2.1 = none ∧ ∃ e, upd.2.2 = some e)) :
    UpdateNF upd reg s =
      match reg.1 with
      | none => .fault { s with trace := s.trace ++ [.refresh, .register] }
      | some q => .ret () { s with KeepAliveTimer := some (intervalOf q),
                                   trace := s.trace ++ [.refresh, .register,
                                     .armTimer (intervalOf q)] } := by
  obtain ⟨prof, pdo, err⟩ := upd
  obtain ⟨rp, re⟩ := reg
  rcases hre with ⟨pd, hpd, hst⟩ | ⟨hpd, e, he⟩
  · simp only at hpd
    subst hpd
    have hcls : pd.Status.tdiv 100 = 5 ∨ pd.Status = 404 ∨ pd.Status = 400 := by
      rcases hst with h | h | h
      · exact Or.inl ((status_class _).mpr h)
      · exact Or.inr (Or.inl h)
      · exact Or.inr (Or.inr h)
    cases rp with
    | none => simp [UpdateNF, hlive, hcls, ServiceState.log]
    | some q => simp [UpdateNF, hlive, hcls, ServiceState.log, intervalOf]
  · simp only at hpd he
    subst hpd he
    cases rp with
    | none => simp [UpdateNF, hlive, ServiceState.log]
    | some q => simp [UpdateNF, hlive, ServiceState.log, intervalOf]

/-- What `UpdateNF` does on a live timer when the refresh leads to no re-registration. -/
theorem updateNF_keep (upd : UpdateResult) (reg : RegistrationResult) (s : ServiceState)
    (t : Int) (hlive : s.KeepAliveTimer = some t)
    (hno : (∃ pd, upd.2.1 = some pd ∧
        ¬ ((500 ≤ pd.Status ∧ pd.Status ≤ 599) ∨ pd.Status = 404 ∨ pd.Status = 400)) ∨
      (upd.2.1 = none ∧ upd.2.2 = none)) :
    UpdateNF upd reg s =
      match upd.1 with
      | none => .fault { s with trace := s.trace ++ [.refresh] }
      | some q => .ret () { s with KeepAliveTimer := some (intervalOf q),
                                   trace := s.trace ++ [.refresh, .armTimer (intervalOf q)] } := by
  obtain ⟨prof, pdo, err⟩ := upd
  rcases hno with ⟨pd, hpd, hst⟩ | ⟨hpd, he⟩
  · simp only at hpd
    subst hpd
    have hcls : ¬ (pd.Status.tdiv 100 = 5 ∨ pd.Status = 404 ∨ pd.Status = 400) := by
      rw [status_class]; exact hst
    cases prof with
    | none => simp [UpdateNF, hlive, hcls, ServiceState.log]
    | some q => simp [UpdateNF, hlive, hcls, ServiceState.log, intervalOf]
  · simp only at hpd he
    subst hpd he
    cases prof with
    | none => simp [UpdateNF, hlive, ServiceState.log]
    | some q => simp [UpdateNF, hlive, ServiceState.log, intervalOf]

/-- C8: when `UpdateNF` fires on a live timer and the refresh is rejected with
problem details of status 5xx, 404 or 400, `SendNFRegistration` is called
exactly once, right after the refresh, and the timer is armed only after it
(with the interval of the registered profile, when there is one). -/
theorem UpdateNF_reregisters (upd : UpdateResult) (reg : RegistrationResult)
    (s : ServiceState) (t : Int) (pd : ProblemDetails)
    (hlive : s.KeepAliveTimer = some t) (hpd : upd.2.1 = some pd)
    (hst : (500 ≤ pd.Status ∧ pd.Status ≤ 599) ∨ pd.Status = 404 ∨ pd.Status = 400) :
    ∃ rest, (UpdateNF upd reg s).state.trace = s.trace ++ .refresh :: .register :: rest ∧
      Event.register ∉ rest ∧
      executions (.refresh :: .register :: rest) = 1 ∧
      ((reg.1 = none ∧ rest = []) ∨
        (∃ q, reg.1 = some q ∧ rest = [.armTimer (intervalOf q)] ∧
          (UpdateNF upd reg s).state.KeepAliveTimer = some (intervalOf q))) := by
  have hrun := updateNF_register upd reg s t hlive (Or.inl ⟨pd, hpd, hst⟩)
  cases hr : reg.1 with
  | none =>
    rw [hr] at hrun
    exact ⟨[], by simp [hrun, Outcome.state], by simp, by simp [executions], Or.inl ⟨rfl, rfl⟩⟩
  | some q =>
    rw [hr] at hrun
    exact ⟨[.armTimer (intervalOf q)], by simp [hrun, Outcome.state], by simp,
      by simp [executions], Or.inr ⟨q, rfl, rfl, by simp [hrun, Outcome.state]⟩⟩

/-- C8 at status 503, 404 and 400. -/
theorem UpdateNF_reregisters_witness :
    (∃ rest, (UpdateNF (none, some ⟨503⟩, none) (some ⟨0⟩, none) liveState).state.trace =
        liveState.trace ++ .refresh :: .register :: rest ∧
      Event.register ∉ rest ∧
      executions (.refresh :: .register :: rest) = 1 ∧
      (((some ⟨0⟩ : Option NfProfile) = none ∧ rest = []) ∨
        (∃ q, (some ⟨0⟩ : Option NfProfile) = some q ∧ rest = [.armTimer (intervalOf q)] ∧
          (UpdateNF (none, some ⟨503⟩, none) (some ⟨0⟩, none) liveState).state.KeepAliveTimer =
            some (intervalOf q)))) ∧
    UpdateNF (none, some ⟨404⟩, none) (some ⟨12⟩, none) liveState =
      .ret () { liveState with KeepAliveTimer := some 12,
                               trace := [.refresh, .register, .armTimer 12] } ∧
    UpdateNF (none, some ⟨400⟩, none) (some ⟨12⟩, none) liveState =
      .ret () { liveState with KeepAliveTimer := some 12,
                               trace := [.refresh, .register, .armTimer 12] } :=
  ⟨UpdateNF_reregisters (none, some ⟨503⟩, none) (some ⟨0⟩, none) liveState 30 ⟨503⟩ rfl rfl
      (Or.inl (by decide)),
   by decide, by decide⟩

/-- C9, as stated, fails: a refresh that fails with an error and no problem
details is followed by a re-registration. -/
theorem UpdateNF_error_registers :
    UpdateNF (some ⟨10⟩, none, some ⟨"connection refused"⟩) (some ⟨20⟩, none) liveState =
      .ret () { liveState with KeepAliveTimer := some 20,
                               trace := [.refresh, .register, .armTimer 20] } ∧
    Event.register ∈ (UpdateNF (some ⟨10⟩, none, some ⟨"connection refused"⟩)
      (some ⟨20⟩, none) liveState).state.trace := by
  decide

/-- C9, amended: when `UpdateNF` fires on a live timer and the refresh is
rejected with problem details of a status other than 5xx, 404 and 400, no
re-registration is made and the timer is rearmed from the profile of the
refresh when there is one; when the refresh fails with an error and no
problem details, exactly one re-registration is made before the rearming. -/
theorem UpdateNF_other_failures (upd : UpdateResult) (reg : RegistrationResult)
    (s : ServiceState) (t : Int) (hlive : s.KeepAliveTimer = some t) :
    (∀ pd, upd.2.1 = some pd →
      ¬ ((500 ≤ pd.Status ∧ pd.Status ≤ 599) ∨ pd.Status = 404 ∨ pd.Status = 400) →
      ∃ rest, (UpdateNF upd reg s).state.trace = s.trace ++ .refresh :: rest ∧
        Event.register ∉ rest ∧ executions (.refresh :: rest) = 0 ∧
        ∀ q, upd.1 = some q →
          UpdateNF upd reg s =
            .ret () { s with KeepAliveTimer := some (intervalOf q),
                             trace := s.trace ++ [.refresh, .armTimer (intervalOf q)] }) ∧
    (∀ e, upd.2.1 = none → upd.2.2 = some e →
      ∃ rest, (UpdateNF upd reg s).state.trace = s.trace ++ .refresh :: .register :: rest ∧
        Event.register ∉ rest ∧ executions (.refresh :: .register :: rest) = 1 ∧
        ∀ q, reg.1 = some q →
          UpdateNF upd reg s =
            .ret () { s with KeepAliveTimer := some (intervalOf q),
                             trace := s.trace ++ [.refresh, .register,
                               .armTimer (intervalOf q)] }) := by
  constructor
  · intro pd hpd hst
    have hrun := updateNF_keep upd reg s t hlive (Or.inl ⟨pd, hpd, hst⟩)
    cases hu : upd.1 with
    | none =>
      rw [hu] at hrun
      exact ⟨[], by simp [hrun, Outcome.state], by simp, by simp [executions],
        fun q hq => by cases hq⟩
    | some q =>
      rw [hu] at hrun
      exact ⟨[.armTimer (intervalOf q)], by simp [hrun, Outcome.state], by simp,
        by simp [executions], fun q2 hq => by cases hq; exact hrun⟩
  · intro e hpd he
    have hrun := updateNF_register upd reg s t hlive (Or.inr ⟨hpd, e, he⟩)
    cases hr : reg.1 with
    | none =>
      rw [hr] at hrun
      exact ⟨[], by simp [hrun, Outcome.state], by simp, by simp [executions],
        fun q hq => by cases hq⟩
    | some q =>
      rw [hr] at hrun
      exact ⟨[.armTimer (intervalOf q)], by simp [hrun, Outcome.state], by simp,
        by simp [executions], fun q2 hq => by cases hq; exact hrun⟩

/-- C9 amended, at status 403 and at an error without problem details. -/
theorem UpdateNF_other_failures_witness :
    liveState.KeepAliveTimer = some 30 ∧
    UpdateNF (some ⟨10⟩, some ⟨403⟩, none) (some ⟨20⟩, none) liveState =
      .ret () { liveState with KeepAliveTimer := some 10,
                               trace := [.refresh, .armTimer 10] } ∧
    (∀ e, (none : Option ProblemDetails) = none →
      (some ⟨"connection refused"⟩ : Option GoError) = some e →
      ∃ rest, (UpdateNF (some ⟨10⟩, none, some ⟨"connection refused"⟩) (some ⟨20⟩, none)
          liveState).state.trace = liveState.trace ++ .refresh :: .register :: rest ∧
        Event.register ∉ rest ∧ executions (.refresh :: .register :: rest) = 1 ∧
        ∀ q, (some ⟨20⟩ : Option NfProfile) = some q →
          UpdateNF (some ⟨10⟩, none, some ⟨"connection refused"⟩) (some ⟨20⟩, none) liveState =
            .ret () { liveState with KeepAliveTimer := some (intervalOf q),
                                     trace := liveState.trace ++ [.refresh, .register,
                                       .armTimer (intervalOf q)] }) :=
  ⟨rfl, by decide,
   (UpdateNF_other_failures (some ⟨10⟩, none, some ⟨"connection refused"⟩) (some ⟨20⟩, none)
      liveState 30 rfl).2⟩

/-- C10: `StartKeepAliveTimer` on a profile arms the timer for the profile's
`HeartBeatTimer`, or for 30 when that is zero; `UpdateNF` on a live timer,
when it returns, has armed the timer in the same way from the profile the
registry returned last: that of the refresh, or that of the re-registration
when one was made. -/
theorem keepalive_interval (p : NfProfile) (upd : UpdateResult) (reg : RegistrationResult)
    (s : ServiceState) :
    (∃ s2, StartKeepAliveTimer (some p) s = .ret () s2 ∧
      s2.KeepAliveTimer = some (if p.HeartBeatTimer = 0 then 30 else p.HeartBeatTimer) ∧
      s2.trace.getLast? =
        some (.armTimer (if p.HeartBeatTimer = 0 then 30 else p.HeartBeatTimer))) ∧
    (∀ s2, s.KeepAliveTimer ≠ none → UpdateNF upd reg s = .ret () s2 →
      ∃ q, ((Event.register ∈ s2.trace.drop s.trace.length ∧ reg.1 = some q) ∨
            (Event.register ∉ s2.trace.drop s.trace.length ∧ upd.1 = some q)) ∧
        s2.KeepAliveTimer = some (if q.HeartBeatTimer = 0 then 30 else q.HeartBeatTimer) ∧
        s2.trace.getLast? =
          some (.armTimer (if q.HeartBeatTimer = 0 then 30 else q.HeartBeatTimer))) := by
  constructor
  · exact ⟨_, startKeepAliveTimer_some p s, rfl, getLast_timerEvents s _⟩
  · intro s2 hlive hret
    obtain ⟨t, ht⟩ := Option.ne_none_iff_exists'.mp hlive
    by_cases hre : (∃ pd, upd.2.1 = some pd ∧
        ((500 ≤ pd.Status ∧ pd.Status ≤ 599) ∨ pd.Status = 404 ∨ pd.Status = 400)) ∨
        (upd.2.1 = none ∧ ∃ e, upd.2.2 = some e)
    · have hrun := updateNF_register upd reg s t ht hre
      cases hr : reg.1 with
      | none => rw [hr, hret] at hrun; cases hrun
      | some q =>
        rw [hr, hret] at hrun
        injection hrun with _ hs2
        subst hs2
        exact ⟨q, Or.inl ⟨by simp, rfl⟩, rfl, by simp [intervalOf]⟩
    · have hno : (∃ pd, upd.2.1 = some pd ∧
          ¬ ((500 ≤ pd.Status ∧ pd.Status ≤ 599) ∨ pd.Status = 404 ∨ pd.Status = 400)) ∨
          (upd.2.1 = none ∧ upd.2.2 = none) := by
        cases hpd : upd.2.1 with
        | some pd =>
          left
          refine ⟨pd, rfl, fun hst => hre (Or.inl ⟨pd, hpd, hst⟩)⟩
        | none =>
          right
          refine ⟨rfl, ?_⟩
          cases he : upd.2.2 with
          | none => rfl
          | some e => exact absurd (Or.inr ⟨hpd, e, he⟩) hre
      have hrun := updateNF_keep upd reg s t ht hno
      cases hu : upd.1 with
      | none => rw [hu, hret] at hrun; cases hrun
      | some q =>
        rw [hu, hret] at hrun
        injection hrun with _ hs2
        subst hs2
        exact ⟨q, Or.inr ⟨by simp, rfl⟩, rfl, by simp [intervalOf]⟩

/-- C10 on a profile without a heartbeat value and on a refresh answered with
a profile asking for 45 seconds. -/
theorem keepalive_interval_witness :
    StartKeepAliveTimer (some ⟨0⟩) liveState =
      .ret () { liveState with trace := [.stopTimer, .armTimer 30] } ∧
    UpdateNF (some ⟨45⟩, none, none) (none, none) liveState =
      .ret () { liveState with KeepAliveTimer := some 45,
                               trace := [.refresh, .armTimer 45] } ∧
    ∃ s2, StartKeepAliveTimer (some ⟨45⟩) liveState = .ret () s2 ∧
      s2.KeepAliveTimer = some (if (45 : Int) = 0 then 30 else 45) ∧
      s2.trace.getLast? = some (.armTimer (if (45 : Int) = 0 then 30 else 45)) :=
  ⟨by decide, by decide,
   (keepalive_interval ⟨45⟩ (some ⟨45⟩, none, none) (none, none) liveState).1⟩

/-! ## Keepalive timer: cancelling -/

/-- C11: after `StopKeepAliveTimer` the timer is nil, and a second call
changes nothing; `UpdateNF` run on a nil timer returns the state as it found
it: no refresh, no re-registration, no arming, and the timer still nil. -/
theorem StopKeepAliveTimer_cancels (upd : UpdateResult) (reg : RegistrationResult)
    (s : ServiceState) :
    (StopKeepAliveTimer s).KeepAliveTimer = none ∧
    StopKeepAliveTimer (StopKeepAliveTimer s) = StopKeepAliveTimer s ∧
    UpdateNF upd reg (StopKeepAliveTimer s) = .ret () (StopKeepAliveTimer s) ∧
    (UpdateNF upd reg (StopKeepAliveTimer s)).state.KeepAliveTimer = none ∧
    (UpdateNF upd reg (StopKeepAliveTimer s)).state.trace = (StopKeepAliveTimer s).trace ∧
    (∀ s0 : ServiceState, s0.KeepAliveTimer = none →
      UpdateNF upd reg s0 = .ret () s0 ∧ StopKeepAliveTimer s0 = s0) := by
  have hnil : (StopKeepAliveTimer s).KeepAliveTimer = none := by
    cases ht : s.KeepAliveTimer <;> simp [StopKeepAliveTimer, ht, ServiceState.log]
  have hgen : ∀ s0 : ServiceState, s0.KeepAliveTimer = none →
      UpdateNF upd reg s0 = .ret () s0 ∧ StopKeepAliveTimer s0 = s0 := by
    intro s0 h0
    exact ⟨by simp [UpdateNF, h0], by simp [StopKeepAliveTimer, h0]⟩
  have hrun := (hgen _ hnil).1
  exact ⟨hnil, (hgen _ hnil).2, hrun, by rw [hrun]; exact hnil, by rw [hrun]; rfl, hgen⟩

/-- C11 on a live timer: the stop is logged once, and a late firing with any
answer of the registry leaves the state as it is. -/
theorem StopKeepAliveTimer_cancels_witness :
    StopKeepAliveTimer liveState =
      { liveState with KeepAliveTimer := none, trace := [.stopTimer] } ∧
    UpdateNF (some ⟨45⟩, none, none) (some ⟨20⟩, none) (StopKeepAliveTimer liveState) =
      .ret () { liveState with KeepAliveTimer := none, trace := [.stopTimer] } ∧
    (StopKeepAliveTimer liveState).KeepAliveTimer = none :=
  ⟨by decide, by decide,
   (StopKeepAliveTimer_cancels (some ⟨45⟩, none, none) (some ⟨20⟩, none) liveState).1⟩

/-- C15 fails: with the timer live, a refresh rejected with status 503 and a
re-registration that gives an error and no profile, `UpdateNF` reads the
`HeartBeatTimer` of a nil profile; it faults after the two calls and arms no
timer.  A refresh rejected with status 403 and no profile faults as well. -/
theorem UpdateNF_nil_profile_faults :
    UpdateNF (none, some ⟨503⟩, none) (none, some ⟨"connection refused"⟩) liveState =
      .fault { liveState with trace := [.refresh, .register] } ∧
    (UpdateNF (none, some ⟨503⟩, none) (none, some ⟨"connection refused"⟩)
      liveState).returned = false ∧
    (∀ secs, Event.armTimer secs ∉
      (UpdateNF (none, some ⟨503⟩, none) (none, some ⟨"connection refused"⟩)
        liveState).state.trace) ∧
    UpdateNF (none, some ⟨403⟩, none) (none, none) liveState =
      .fault { liveState with trace := [.refresh] } := by
  refine ⟨by decide, by decide, ?_, by decide⟩
  intro secs
  have htrace : (UpdateNF (none, some ⟨503⟩, none) (none, some ⟨"connection refused"⟩)
      liveState).state.trace = [.refresh, .register] := by decide
  rw [htrace]
  simp

/-! ## Session create: the claim -/

/-- C14: for a completed create transaction with a response and a session
context, what follows depends on the status alone: on 201 one transaction of
kind `PfcpSessCreate` bound to that context is submitted and the table is left
as it is; on any other status nothing is submitted and the context is taken
out of the table by its reference. -/
theorem HTTPPostSmContexts_follow_up (txn : Transaction) (s : PduState) (status : Int)
    (smContext : SMContext) (hrsp : txn.Rsp = some ⟨status⟩)
    (hctx : txn.Ctxt = some smContext) :
    ∃ s2 new, HTTPPostSmContexts none txn s = some s2 ∧ s2.events = s.events ++ new ∧
      (status = 201 →
        submitted new =
          [{ MsgType := .PfcpSessCreate, CtxtKey := "", Ctxt := some smContext,
             Rsp := none, Err := none }] ∧
        removed new = [] ∧ s2.smContextPool = s.smContextPool) ∧
      (status ≠ 201 →
        submitted new = [] ∧ removed new = [smContext.Ref] ∧
        s2.smContextPool = s.smContextPool.filter (fun entry => entry.1 ≠ smContext.Ref) ∧
        s2.smContextPool.lookup smContext.Ref = none) := by
  have hlook : ∀ pool : List (String × SMContext),
      (pool.filter (fun entry => entry.1 ≠ smContext.Ref)).lookup smContext.Ref = none := by
    intro pool
    induction pool with
    | nil => rfl
    | cons entry rest ih =>
      obtain ⟨k, v⟩ := entry
      by_cases he : k = smContext.Ref
      · rw [List.filter_cons_of_neg (by simpa using he)]
        exact ih
      · have hne : (smContext.Ref == k) = false := by
          rw [beq_eq_false_iff_ne]; exact fun h => he h.symm
        rw [List.filter_cons_of_pos (by simpa using he), List.lookup_cons, hne]
        exact ih
  by_cases hst : status = 201
  · subst hst
    refine ⟨{ smContextPool := s.smContextPool,
              events := s.events ++
                [.render 201, .submit ⟨.PfcpSessCreate, "", some smContext, none, none⟩] },
      [.render 201, .submit ⟨.PfcpSessCreate, "", some smContext, none, none⟩],
      ?_, rfl, fun _ => ⟨rfl, rfl, rfl⟩, fun h => absurd rfl h⟩
    simp [HTTPPostSmContexts, hrsp, hctx, multipartStatuses, NewTransaction]
  · by_cases hm : status ∈ multipartStatuses
    · refine ⟨{ smContextPool := s.smContextPool.filter (fun entry => entry.1 ≠ smContext.Ref),
                events := s.events ++ [.render status, .remove smContext.Ref] },
        [.render status, .remove smContext.Ref],
        ?_, rfl, fun h => absurd h hst, fun _ => ⟨rfl, rfl, rfl, hlook _⟩⟩
      simp [HTTPPostSmContexts, hrsp, hctx, hm, hst, RemoveSMContext]
    · refine ⟨{ smContextPool := s.smContextPool.filter (fun entry => entry.1 ≠ smContext.Ref),
                events := s.events ++ [.json status, .remove smContext.Ref] },
        [.json status, .remove smContext.Ref],
        ?_, rfl, fun h => absurd h hst, fun _ => ⟨rfl, rfl, rfl, hlook _⟩⟩
      simp [HTTPPostSmContexts, hrsp, hctx, hm, hst, RemoveSMContext]

/-- C14 on a table with two sessions, at status 201 and at status 403. -/
theorem HTTPPostSmContexts_follow_up_witness :
    HTTPPostSmContexts none (completedCreate 201) sampleTable =
      some { sampleTable with
             events := [.render 201,
                        .submit ⟨.PfcpSessCreate, "", some ⟨"urn:uuid:2"⟩, none, none⟩] } ∧
    HTTPPostSmContexts none (completedCreate 403) sampleTable =
      some { smContextPool := [("urn:uuid:1", ⟨"urn:uuid:1"⟩)],
             events := [.render 403, .remove "urn:uuid:2"] } ∧
    ∃ s2 new, HTTPPostSmContexts none (completedCreate 403) sampleTable = some s2 ∧
      s2.events = sampleTable.events ++ new ∧
      ((403 : Int) = 201 →
        submitted new =
          [{ MsgType := .PfcpSessCreate, CtxtKey := "", Ctxt := some ⟨"urn:uuid:2"⟩,
             Rsp := none, Err := none }] ∧
        removed new = [] ∧ s2.smContextPool = sampleTable.smContextPool) ∧
      ((403 : Int) ≠ 201 →
        submitted new = [] ∧ removed new = [(⟨"urn:uuid:2"⟩ : SMContext).Ref] ∧
        s2.smContextPool = sampleTable.smContextPool.filter
          (fun entry => entry.1 ≠ (⟨"urn:uuid:2"⟩ : SMContext).Ref) ∧
        s2.smContextPool.lookup (⟨"urn:uuid:2"⟩ : SMContext).Ref = none) :=
  ⟨by decide, by decide,
   HTTPPostSmContexts_follow_up (completedCreate 403) sampleTable 403 ⟨"urn:uuid:2"⟩ rfl rfl⟩

/-! ## QoS flow descriptions: order of blocks and parameters -/

theorem parseParams_encode : ∀ (params : List QosFlowParameter) (rest : List Nat),
    parseParams params.length (encodeParams params ++ rest) =
      some (params.map tripletOf, rest)
  | [], rest => by simp [parseParams, encodeParams]
  | param :: params, rest => by
    have ih := parseParams_encode params rest
    have henc : encodeParams (param :: params) ++ rest =
        param.ParamId :: param.ParamContent.length ::
          (param.ParamContent ++ (encodeParams params ++ rest)) := by
      simp [encodeParams, encodeParam]
    rw [henc, List.length_cons, parseParams]
    simp only [List.length_append, Nat.le_add_right, if_true, List.drop_left, List.take_left, ih,
      List.map_cons, tripletOf]

theorem parseBlocks_encode : ∀ (flows : List QosData) (fuel : Nat), flows.length ≤ fuel →
    (∀ q ∈ flows, q.Params.length < 64) →
    parseBlocks fuel (encodeFlows flows) = some (flows.map blockOf)
  | [], fuel, _, _ => by cases fuel <;> simp [parseBlocks, encodeFlows]
  | qosData :: flows, 0, hfuel, _ => by simp at hfuel
  | qosData :: flows, fuel + 1, hfuel, hcnt => by
    have ih := parseBlocks_encode flows fuel (by simpa using hfuel)
      (fun q hq => hcnt q (List.mem_cons_of_mem _ hq))
    have hcount : (QFDEbit + qosData.Params.length) % 64 = qosData.Params.length := by
      have := hcnt qosData (List.mem_cons_self _ _)
      simp only [QFDEbit]; omega
    have henc : encodeFlows (qosData :: flows) =
        qosData.QosId :: OperationCodeCreateNewQoSFlowDescription ::
          (QFDEbit + qosData.Params.length) ::
            (encodeParams qosData.Params ++ encodeFlows flows) := by
      simp [encodeFlows, AddQFD, BuildAddQosFlowDescFromQoSDesc]
    rw [henc, parseBlocks, hcount, parseParams_encode qosData.Params (encodeFlows flows)]
    simp only [ih, List.map_cons, blockOf]

theorem length_le_encodeFlows : ∀ (flows : List QosData),
    flows.length ≤ (encodeFlows flows).length
  | [] => Nat.le_refl _
  | qosData :: flows => by
    have := length_le_encodeFlows flows
    simp [encodeFlows, AddQFD]
    omega

theorem encodeFlows_flatten : ∀ (flows : List QosData),
    encodeFlows flows =
      ((flows.map BuildAddQosFlowDescFromQoSDesc).map AddQFD).flatten
  | [] => rfl
  | qosData :: flows => by
    simp [encodeFlows, encodeFlows_flatten flows]

theorem overrideQosData_id (earlier later : QosData) :
    (overrideQosData earlier later).QosId = later.QosId := rfl

theorem mergeDecision_ids : ∀ (flows : List QosData) (d x : QosData),
    x ∈ mergeDecision flows d → x.QosId = d.QosId ∨ ∃ y ∈ flows, x.QosId = y.QosId
  | [], d, x, hx => by
    simp [mergeDecision] at hx; subst hx; exact Or.inl rfl
  | q :: rest, d, x, hx => by
    unfold mergeDecision at hx
    by_cases h1 : d.QosId < q.QosId
    · rw [if_pos h1] at hx
      simp only [List.mem_cons] at hx
      rcases hx with rfl | rfl | hx
      · exact Or.inl rfl
      · exact Or.inr ⟨x, List.mem_cons_self _ _, rfl⟩
      · exact Or.inr ⟨x, List.mem_cons_of_mem _ hx, rfl⟩
    · by_cases h2 : d.QosId = q.QosId
      · rw [if_neg h1, if_pos h2] at hx
        simp only [List.mem_cons] at hx
        rcases hx with rfl | hx
        · exact Or.inl (by rw [overrideQosData_id])
        · exact Or.inr ⟨x, List.mem_cons_of_mem _ hx, rfl⟩
      · rw [if_neg h1, if_neg h2] at hx
        simp only [List.mem_cons] at hx
        rcases hx with rfl | hx
        · exact Or.inr ⟨x, List.mem_cons_self _ _, rfl⟩
        · rcases mergeDecision_ids rest d x hx with h | ⟨y, hy, hxy⟩
          · exact Or.inl h
          · exact Or.inr ⟨y, List.mem_cons_of_mem _ hy, hxy⟩

theorem mergeDecision_sorted : ∀ (flows : List QosData) (d : QosData),
    List.Pairwise (fun a b => a.QosId < b.QosId) flows →
      List.Pairwise (fun a b => a.QosId < b.QosId) (mergeDecision flows d)
  | [], d, _ => by simp [mergeDecision]
  | q :: rest, d, hs => by
    obtain ⟨hq, hrest⟩ := List.pairwise_cons.mp hs
    unfold mergeDecision
    by_cases h1 : d.QosId < q.QosId
    · rw [if_pos h1]
      refine List.pairwise_cons.mpr ⟨?_, hs⟩
      intro y hy
      rcases List.mem_cons.mp hy with rfl | hy2
      · exact h1
      · exact Nat.lt_trans h1 (hq y hy2)
    · by_cases h2 : d.QosId = q.QosId
      · rw [if_neg h1, if_pos h2]
        refine List.pairwise_cons.mpr ⟨?_, hrest⟩
        intro y hy
        rw [overrideQosData_id, h2]
        exact hq y hy
      · rw [if_neg h1, if_neg h2]
        refine List.pairwise_cons.mpr ⟨?_, mergeDecision_sorted rest d hrest⟩
        intro y hy
        rcases mergeDecision_ids rest d y hy with h | ⟨z, hz, hyz⟩
        · rw [h]; omega
        · rw [hyz]; exact hq z hz

theorem buildSmPolicyUpdate_sorted (smCtxtPolData : SmCtxtPolicyData)
    (smPolicyDecision : SmPolicyDecision) :
    List.Pairwise (fun a b => a.QosId < b.QosId)
      (BuildSmPolicyUpdate smCtxtPolData smPolicyDecision).QosFlowUpdate := by
  unfold BuildSmPolicyUpdate
  simp only
  generalize smPolicyDecision.QosDecs = decs
  have hgen : ∀ (decs : List (Nat × Option QosData)) (flows : List QosData),
      List.Pairwise (fun a b => a.QosId < b.QosId) flows →
      List.Pairwise (fun a b => a.QosId < b.QosId)
        (decs.foldl
          (fun flows (entry : Nat × Option QosData) =>
            if smPolicyDecision.PccRules.any (fun rule => rule.RefQosData.contains entry.1) then
              match entry.2 with
              | some d => mergeDecision flows d
              | none => flows.filter (fun q => q.QosId ≠ entry.1)
            else flows)
          flows) := by
    intro decs
    induction decs with
    | nil => intro flows hf; exact hf
    | cons entry rest ih =>
      intro flows hf
      rw [List.foldl_cons]
      apply ih
      by_cases href : smPolicyDecision.PccRules.any
          (fun rule => rule.RefQosData.contains entry.1) = true
      · rw [if_pos href]
        cases hd : entry.2 with
        | none => exact List.Pairwise.filter _ hf
        | some d => exact mergeDecision_sorted flows d hf
      · rw [if_neg href]; exact hf
  exact hgen decs [] List.Pairwise.nil

/-- C13, as stated, fails: the bytes the test expects read back as one block
whose parameters have the type codes 1, 4, 5, 2, 3, and these are not in
ascending order. -/
theorem expectedBytes_types_not_ascending :
    ∃ block, parseBlocks expectedBytes.length expectedBytes = some [block] ∧
      block.flowId = 5 ∧
      block.paramTypes = [1, 4, 5, 2, 3] ∧ ¬ ascending block.paramTypes :=
  ⟨_, rfl, rfl, rfl, by decide⟩

/-- C13, amended: the content of every output is the blocks of the flow
descriptions of the update set one after the other, and these descriptions
are in ascending order of flow identifier; when no flow has more parameters
than the six bits of the count hold, the content reads back as these blocks,
their flow-identifier bytes ascending; the parameters of a block are not
always in ascending order of type code: those of the one block the test
expects have the codes 1, 4, 5, 2, 3. -/
theorem BuildAuthorizedQosFlowDescriptions_order (smCtxtPolData : SmCtxtPolicyData)
    (smPolicyDecision : SmPolicyDecision) :
    (BuildAuthorizedQosFlowDescriptions
        (BuildSmPolicyUpdate smCtxtPolData smPolicyDecision)).Content =
      (((BuildSmPolicyUpdate smCtxtPolData smPolicyDecision).QosFlowUpdate.map
        BuildAddQosFlowDescFromQoSDesc).map AddQFD).flatten ∧
    List.Pairwise (fun a b => a.Qfi < b.Qfi)
      ((BuildSmPolicyUpdate smCtxtPolData smPolicyDecision).QosFlowUpdate.map
        BuildAddQosFlowDescFromQoSDesc) ∧
    ((∀ q ∈ (BuildSmPolicyUpdate smCtxtPolData smPolicyDecision).QosFlowUpdate,
        q.Params.length < 64) →
      ∃ blocks,
        parseBlocks
            (BuildAuthorizedQosFlowDescriptions
              (BuildSmPolicyUpdate smCtxtPolData smPolicyDecision)).Content.length
            (BuildAuthorizedQosFlowDescriptions
              (BuildSmPolicyUpdate smCtxtPolData smPolicyDecision)).Content = some blocks ∧
        blocks.length =
          (BuildSmPolicyUpdate smCtxtPolData smPolicyDecision).QosFlowUpdate.length ∧
        List.Pairwise (fun a b => a.flowId < b.flowId) blocks) ∧
    ∃ block, parseBlocks expectedBytes.length expectedBytes = some [block] ∧
      block.paramTypes = [1, 4, 5, 2, 3] := by
  have hsorted := buildSmPolicyUpdate_sorted smCtxtPolData smPolicyDecision
  refine ⟨encodeFlows_flatten _, ?_, ?_, ⟨_, rfl, rfl⟩⟩
  · rw [List.pairwise_map]
    exact hsorted
  · intro hcnt
    refine ⟨_, parseBlocks_encode _ _ (length_le_encodeFlows _) hcnt, by simp, ?_⟩
    rw [List.pairwise_map]
    exact hsorted

/-- C13 amended, on decisions given out of order: the block of flow 5 comes
before that of flow 69, whose second parameter is the overriding one. -/
theorem BuildAuthorizedQosFlowDescriptions_order_witness :
    (BuildAuthorizedQosFlowDescriptions (BuildSmPolicyUpdate {} twoFlowDecision)).Content =
      [5, 0x20, 0x42, 1, 1, 5, 4, 3, 6, 0, 101,
       69, 0x20, 0x42, 1, 1, 9, 2, 3, 6, 0, 12] ∧
    List.Pairwise (fun a b => a.Qfi < b.Qfi)
      ((BuildSmPolicyUpdate {} twoFlowDecision).QosFlowUpdate.map
        BuildAddQosFlowDescFromQoSDesc) :=
  ⟨by decide, (BuildAuthorizedQosFlowDescriptions_order {} twoFlowDecision).2.1⟩

end Smf
